import Mathlib

/-!
# practical-go: `RegexReplaceFile`

A shallow embedding of `regex_replace_file.go`.

* Go strings are lists of characters (`Str`): files and patterns are valid UTF-8 text,
  and an index is a character index.  Line numbers are natural numbers (a Go `int`
  does not overflow on the lines of a file).
* The Go standard library (`regexp`, `strings`, `fmt`, `bufio`, `os`) is modelled by
  the definitions of the first sections, which follow the code of the library.  A
  compiled pattern is an arbitrary search function (`Regexp`), so the theorems hold for
  every pattern the library accepts; a small backtracking matcher (`Re`) supplies the
  patterns of the examples.
* The tables of package `unicode` are a parameter (`Unicode`), so the theorems hold for
  the tables of any version of Go.
* The file system is explicit state (`World`, with the trace of the calls made); the
  failures the operating system can inject are the fields of `Env`.
-/

namespace Practical

/-- A Go `string`. -/
abbrev Str := List Char

/-- The Go slice expression `s[i:j]`. -/
def slice (s : Str) (i j : Nat) : Str := (s.take j).drop i

/-! ## `regexp`: compiled patterns -/

/-- A half-open span `[start, stop)` of a string. -/
structure Loc where
  start : Nat
  stop : Nat
deriving DecidableEq, Repr

/-- The index slice `regexp` computes for one match: the span of the whole match and
the span of each capture group (`none` where Go stores `-1`). -/
structure MatchLoc where
  whole : Loc
  groups : List (Option Loc)
deriving DecidableEq, Repr

/-- A compiled `*regexp.Regexp`: `exec src pos` is `re.doExecute` on `src` with the
search starting at `pos`, the leftmost match at or after `pos` read in the context of
the whole of `src`. -/
structure Regexp where
  exec : Str → Nat → Option MatchLoc

/-- What every compiled pattern guarantees: a match found by a search from `pos` is a
span of `src` that starts at or after `pos`. -/
def Regexp.Sound (re : Regexp) : Prop :=
  ∀ (src : Str) (pos : Nat) (a : MatchLoc), re.exec src pos = some a →
    pos ≤ a.whole.start ∧ a.whole.start ≤ a.whole.stop ∧ a.whole.stop ≤ src.length

/-! ### A backtracking matcher for concrete patterns -/

/-- Syntax of the patterns used in the examples. -/
inductive Re where
  | empty : Re
  | lit : Char → Re
  | any : Re
  | seq : Re → Re → Re
  | alt : Re → Re → Re
  | star : Re → Re
  | group : Nat → Re → Re
  | bol : Re
  | eol : Re
  | wordB : Re
  | noWordB : Re
deriving Repr

/-- The class `\w` of `regexp/syntax`: ASCII letters, digits and `_`. -/
def isWordChar (c : Char) : Bool := c.isAlphanum || c == '_'

/-- Whether position `pos` of `s` is an ASCII word boundary (`\b`). -/
def atWordBoundary (s : Str) (pos : Nat) : Bool :=
  let before := if pos = 0 then false else (s[pos - 1]?).any isWordChar
  let after := (s[pos]?).any isWordChar
  before != after

/-- Greedy iteration of `step`; an iteration that consumes nothing ends the loop.  Every
further iteration starts at a later position of the string, so the fuel
`s.length + 1 - pos` of `Re.run` is never used up (`starLoop_fuel`). -/
def starLoop {R : Type} (step : Nat → List (Option Loc) → (Nat → List (Option Loc) → Option R) → Option R) :
    Nat → Nat → List (Option Loc) → (Nat → List (Option Loc) → Option R) → Option R
  | 0, pos, caps, k => k pos caps
  | fuel + 1, pos, caps, k =>
    match step pos caps (fun p c => if pos < p then starLoop step fuel p c k else none) with
    | some r => some r
    | none => k pos caps

/-- Leftmost-first backtracking: `Re.run r s pos caps k` matches `r` at `pos` and hands
the end position and captures to the continuation `k`. -/
def Re.run {R : Type} (s : Str) : Re → Nat → List (Option Loc) →
    (Nat → List (Option Loc) → Option R) → Option R
  | .empty, pos, caps, k => k pos caps
  | .lit c, pos, caps, k => if s[pos]? = some c then k (pos + 1) caps else none
  | .any, pos, caps, k =>
    match s[pos]? with
    | some c => if c = '\n' then none else k (pos + 1) caps
    | none => none
  | .seq a b, pos, caps, k => Re.run s a pos caps (fun p c => Re.run s b p c k)
  | .alt a b, pos, caps, k =>
    match Re.run s a pos caps k with
    | some r => some r
    | none => Re.run s b pos caps k
  | .star a, pos, caps, k => starLoop (Re.run s a) (s.length + 1 - pos) pos caps k
  | .group i a, pos, caps, k =>
    Re.run s a pos caps (fun p c => k p (c.set i (some ⟨pos, p⟩)))
  | .bol, pos, caps, k => if pos = 0 then k pos caps else none
  | .eol, pos, caps, k => if pos = s.length then k pos caps else none
  | .wordB, pos, caps, k => if atWordBoundary s pos then k pos caps else none
  | .noWordB, pos, caps, k => if atWordBoundary s pos then none else k pos caps

/-- Try the start positions `pos, pos + 1, ...` in turn, `fuel` of them. -/
def Re.search (r : Re) (ngroups : Nat) (s : Str) : Nat → Nat → Option MatchLoc
  | 0, _ => none
  | fuel + 1, pos =>
    match Re.run s r pos (List.replicate ngroups none)
        (fun p c => some (MatchLoc.mk ⟨pos, p⟩ c)) with
    | some m => some m
    | none => Re.search r ngroups s fuel (pos + 1)

/-- The compiled form of a pattern with `ngroups` capture groups (numbered from 0 in
`Re.group`, so `Re.group 0` is Go's group 1): the search tries the start positions from
`pos` to the end of the string. -/
def Re.toRegexp (r : Re) (ngroups : Nat) : Regexp :=
  ⟨fun s pos => Re.search r ngroups s (s.length + 1 - pos) pos⟩

/-- The pattern matching exactly the characters of `s`. -/
def Re.ofLiteral : Str → Re
  | [] => Re.empty
  | [c] => Re.lit c
  | c :: cs => Re.seq (Re.lit c) (Re.ofLiteral cs)

/-! ### The `regexp` functions the program calls -/

/-- The width of the character at `pos`, in characters: 0 at the end of the string
(the result of `utf8.DecodeRuneInString` on the rest of the string). -/
def runeWidth (src : Str) (pos : Nat) : Nat := if pos < src.length then 1 else 0

/-- The position of the next search in `(*Regexp).replaceAll`: past the match, and at
least one character further than the last search. -/
def advance (src : Str) (searchPos : Nat) (a : MatchLoc) : Nat :=
  if searchPos + runeWidth src searchPos > a.whole.stop then searchPos + runeWidth src searchPos
  else if searchPos + 1 > a.whole.stop then searchPos + 1
  else a.whole.stop

/-- Whether `(*Regexp).replaceAll` replaces the match `a`: not a match of the empty
string right after the previous match. -/
def replaces (lastMatchEnd : Nat) (a : MatchLoc) : Bool :=
  decide (a.whole.stop > lastMatchEnd ∨ a.whole.start = 0)

/-- The loop of `(*Regexp).replaceAll`: `lastMatchEnd` is the end of the most recent
match, `searchPos` the position of the next search, `buf` the output so far and `st` the
state the callback `repl` threads through its calls.  For a sound pattern the search
position grows in every round, so `src.length + 1 - searchPos` rounds of fuel are never
used up (`replaceAllLoop_fuel`). -/
def replaceAllLoop {σ : Type} (re : Regexp) (src : Str) (repl : σ → MatchLoc → σ × Str) :
    Nat → Nat → Nat → Str → σ → σ × Str
  | 0, lastMatchEnd, _, buf, st => (st, buf ++ src.drop lastMatchEnd)
  | fuel + 1, lastMatchEnd, searchPos, buf, st =>
    if searchPos ≤ src.length then
      match re.exec src searchPos with
      | none => (st, buf ++ src.drop lastMatchEnd)
      | some a =>
        let buf1 := buf ++ slice src lastMatchEnd a.whole.start
        if replaces lastMatchEnd a then
          replaceAllLoop re src repl fuel a.whole.stop (advance src searchPos a)
            (buf1 ++ (repl st a).2) (repl st a).1
        else
          replaceAllLoop re src repl fuel a.whole.stop (advance src searchPos a) buf1 st
    else (st, buf ++ src.drop lastMatchEnd)

/-- The function `(*Regexp).replaceAll`. -/
def replaceAll {σ : Type} (re : Regexp) (src : Str) (repl : σ → MatchLoc → σ × Str) (st : σ) :
    σ × Str :=
  replaceAllLoop re src repl (src.length + 1) 0 0 [] st

/-- The function `(*Regexp).ReplaceAllStringFunc`, with the state of the closure `repl`
passed explicitly. -/
def ReplaceAllStringFunc {σ : Type} (re : Regexp) (src : Str) (repl : σ → Str → σ × Str)
    (st : σ) : σ × Str :=
  replaceAll re src (fun s a => repl s (slice src a.whole.start a.whole.stop)) st

/-- The text of a capture: the empty string for a group that did not take part. -/
def captureText (s : Str) : Option Loc → Str
  | some l => slice s l.start l.stop
  | none => []

/-- The function `(*Regexp).FindStringSubmatch`; Go's `nil` is the empty list. -/
def FindStringSubmatch (re : Regexp) (s : Str) : List Str :=
  match re.exec s 0 with
  | none => []
  | some a => slice s a.whole.start a.whole.stop :: a.groups.map (captureText s)

/-- The function `strings.Cut` with a one-character separator. -/
def cut (sep : Char) : Str → Option (Str × Str)
  | [] => none
  | c :: cs =>
    if c = sep then some ([], cs)
    else match cut sep cs with
      | none => none
      | some (before, after) => some (c :: before, after)

/-- The tables of package `unicode` that `regexp` consults: the functions
`unicode.IsLetter` and `unicode.IsDigit`. -/
structure Unicode where
  IsLetter : Char → Bool
  IsDigit : Char → Bool

/-- The characters of a name in a replacement template: the letters and digits of
Unicode and the underscore. -/
def isNameChar (u : Unicode) (c : Char) : Bool := u.IsLetter c || u.IsDigit c || c == '_'

/-- The number a template name denotes: `none` (Go's `-1`) for a name that is not all
digits, has a leading zero or is too large. -/
def nameNumber (name : Str) : Option Nat :=
  let num := name.foldl
    (fun (acc : Option Nat) c =>
      match acc with
      | none => none
      | some n => if c.isDigit ∧ n < 100000000 then some (n * 10 + (c.toNat - 48)) else none)
    (some 0)
  if name.head? = some '0' ∧ 1 < name.length then none else num

/-- The function `extract` of `regexp`: the name at the head of `str` (the text after a
`$`), its number and the rest of the template. -/
def extract (u : Unicode) (str : Str) : Option (Option Nat × Str) :=
  let brace := str.head? = some '{'
  let body := if brace then str.tail else str
  let name := body.takeWhile (isNameChar u)
  let rest := body.dropWhile (isNameChar u)
  if name = [] then none
  else if brace then
    match rest with
    | '}' :: rest1 => some (nameNumber name, rest1)
    | _ => none
  else some (nameNumber name, rest)

/-- The text a numbered template variable stands for: group 0 is the whole match, a
group out of range or unmatched gives the empty string. -/
def groupText (src : Str) (a : MatchLoc) : Nat → Str
  | 0 => slice src a.whole.start a.whole.stop
  | n + 1 => captureText src ((a.groups[n]?).join)

/-- The loop of `(*Regexp).expand` for a pattern without named groups: a name that is
not a number stands for the empty string.  Every round removes a `$` from the template,
so `template.length + 1` rounds of fuel are never used up (`expandLoop_fuel`). -/
def expandLoop (u : Unicode) (src : Str) (a : MatchLoc) : Nat → Str → Str → Str
  | 0, template, dst => dst ++ template
  | fuel + 1, template, dst =>
    match cut '$' template with
    | none => dst ++ template
    | some (before, after) =>
      match after with
      | '$' :: rest => expandLoop u src a fuel rest (dst ++ before ++ ['$'])
      | _ =>
        match extract u after with
        | none => expandLoop u src a fuel after (dst ++ before ++ ['$'])
        | some (some num, rest) => expandLoop u src a fuel rest (dst ++ before ++ groupText src a num)
        | some (none, rest) => expandLoop u src a fuel rest (dst ++ before)

/-- The function `(*Regexp).expand`. -/
def expand (u : Unicode) (template src : Str) (a : MatchLoc) : Str :=
  expandLoop u src a (template.length + 1) template []

/-- The function `(*Regexp).ReplaceAllString`: inside `repl`, `$` signs are interpreted
as in `Expand`. -/
def ReplaceAllString (u : Unicode) (re : Regexp) (src repl : Str) : Str :=
  (replaceAll re src (fun (st : Unit) a => (st, expand u repl src a)) ()).2

/-! ## `strings` and `fmt` -/

/-- The function `strings.Contains`. -/
def stringsContains : Str → Str → Bool
  | [], substr => substr.isEmpty
  | c :: cs, substr => substr.isPrefixOf (c :: cs) || stringsContains cs substr

/-- The call fmt.Sprintf("$%d", i): the verb `%d` of a non-negative `int`. -/
def placeholderLiteral (i : Nat) : Str := '$' :: Nat.toDigits 10 i

/-- The pattern regexp.MustCompile of the text `\$` followed by the decimal digits of
`i`: a literal `$` and the digits. -/
def placeholderRegexp (i : Nat) : Regexp := Re.toRegexp (Re.ofLiteral (placeholderLiteral i)) 0

/-! ## `bufio` -/

/-- The constant `bufio.MaxScanTokenSize`. -/
def maxScanTokenSize : Nat := 64 * 1024

/-- Length of a string in bytes (UTF-8). -/
def byteLen (s : Str) : Nat := (s.map Char.utf8Size).sum

/-- The function `dropCR` of `bufio`: drops one trailing carriage return. -/
def dropCR (data : Str) : Str :=
  if data.getLast? = some '\r' then data.dropLast else data

/-- The tokens a `bufio.Scanner` with the default split function `ScanLines` returns on
the bytes `data` (`cur` is the line read so far), and whether the scan stopped with
`ErrTooLong`: a line whose bytes, terminator apart, fill the scanner's buffer of
`MaxScanTokenSize` bytes is not returned and ends the scan. -/
def scanLines : Str → Str → List Str × Bool
  | cur, [] =>
    if cur = [] then ([], false)
    else if maxScanTokenSize ≤ byteLen cur then ([], true)
    else ([dropCR cur], false)
  | cur, c :: rest =>
    if c = '\n' then
      if maxScanTokenSize ≤ byteLen cur then ([], true)
      else (dropCR cur :: (scanLines [] rest).1, (scanLines [] rest).2)
    else scanLines (cur ++ [c]) rest

/-! ## `os`: the file system -/

/-- A regular file: its bytes and its permission bits. -/
structure File where
  content : Str
  mode : Nat
deriving DecidableEq, Repr

/-- The errors `RegexReplaceFile` reports, by the operation that failed. -/
inductive GoError where
  | openFailed
  | createTempFailed
  | invalidPattern
  | writeFailed
  | scanFailed
  | flushFailed
  | renameFailed
  | chmodFailed
deriving DecidableEq, Repr

/-- The calls the program makes on files, successful or not. -/
inductive Event where
  | openFile (path : Str)
  | createTemp (name : Str)
  | scanLine (lineNumber : Nat)
  | writeString (data : Str)
  | flush (name : Str)
  | rename (oldpath newpath : Str)
  | chmod (path : Str) (mode : Nat)
  | closeFile (path : Str)
  | remove (path : Str)
deriving DecidableEq, Repr

/-- The file system, as a map from paths to files, and the calls made so far. -/
structure World where
  fs : Str → Option File
  trace : List Event

/-- What the program does not control: the tables of package `unicode`, the result of
`regexp.Compile` on each pattern
(`none` for a pattern that does not compile), the name `os.CreateTemp` picks, and the
operations the operating system makes fail.  `readFault = some n` makes reading the
source fail after `n` characters; `writeFails k` makes the `WriteString` of line `k`
fail.  Closing a file and removing a file the call created do not fail. -/
structure Env where
  unicode : Unicode
  compile : Str → Option Regexp
  tempName : Str
  openFails : Bool
  createTempFails : Bool
  readFault : Option Nat
  writeFails : Nat → Bool
  flushFails : Bool
  renameFails : Bool
  chmodFails : Bool

/-- Record a call in the trace. -/
def World.log (w : World) (e : Event) : World := { w with trace := w.trace ++ [e] }

/-- Set or erase the file at `path`. -/
def World.put (w : World) (path : Str) (f : Option File) : World :=
  { w with fs := fun p => if p = path then f else w.fs p }

/-! ## The program -/

/-- The Go struct `MatchedLine`. -/
structure MatchedLine where
  FilePath : Str
  LineNumber : Nat
  Matches : List Str
  Replace : Bool
  Replacement : Str
deriving DecidableEq, Repr

/-- The Go struct `fileRegexReplacer`.  `file` is the path of the open source (`none` for
a nil handle), `scanner` the bytes the scanner will read from it, `tempFile` the name of
the open temporary file, `writer` the bytes given to the buffered writer. -/
structure fileRegexReplacer where
  filePath : Str
  regex : Option Regexp
  repl : Str
  file : Option Str
  tempFile : Option Str
  scanner : Option Str
  writer : Str
  err : Option GoError
  result : List MatchedLine

/-- The method `expectReplace`. -/
def fileRegexReplacer.expectReplace (frr : fileRegexReplacer) : Bool := 0 < frr.repl.length

/-- The function `newFileRegexReplacer`: open the source, create the temporary file when
a replacement is expected, compile the pattern. -/
def newFileRegexReplacer (env : Env) (w : World) (filepath pattern repl : Str) :
    fileRegexReplacer × World :=
  let ret : fileRegexReplacer :=
    { filePath := filepath, regex := none, repl := repl, file := none, tempFile := none,
      scanner := none, writer := [], err := none, result := [] }
  let w1 := w.log (Event.openFile filepath)
  match (if env.openFails then none else w.fs filepath) with
  | none => ({ ret with err := some GoError.openFailed }, w1)
  | some f =>
    let ret1 := { ret with file := some filepath, scanner := some f.content }
    if ret1.expectReplace then
      let w2 := w1.log (Event.createTemp env.tempName)
      if env.createTempFails ∨ (w.fs env.tempName).isSome then
        ({ ret1 with err := some GoError.createTempFailed }, w2)
      else
        let w3 := w2.put env.tempName (some ⟨[], 0o600⟩)
        let ret2 := { ret1 with tempFile := some env.tempName }
        match env.compile pattern with
        | none => ({ ret2 with err := some GoError.invalidPattern }, w3)
        | some re => ({ ret2 with regex := some re }, w3)
    else
      match env.compile pattern with
      | none => ({ ret1 with err := some GoError.invalidPattern }, w1)
      | some re => ({ ret1 with regex := some re }, w1)

/-- The loop over the submatches in `scan`: for each index `i` whose token occurs in the
template `repl`, replace the matches of the placeholder pattern in `result`. -/
def substituteLoop (u : Unicode) (repl : Str) : List Str → Nat → Str → Str
  | [], _, result => result
  | sub :: rest, i, result =>
    if stringsContains repl (placeholderLiteral i) then
      substituteLoop u repl rest (i + 1) (ReplaceAllString u (placeholderRegexp i) result sub)
    else substituteLoop u repl rest (i + 1) result

/-- The closure `scan` passes to `ReplaceAllStringFunc`; its state is `frr.result`. -/
def onMatch (u : Unicode) (re : Regexp) (filePath repl : Str) (lineNumber : Nat)
    (result : List MatchedLine) (m : Str) : List MatchedLine × Str :=
  let submatches := FindStringSubmatch re m
  if 0 < submatches.length then
    let res := if 0 < repl.length then substituteLoop u repl submatches 0 repl else repl
    (result ++ [{ FilePath := filePath, LineNumber := lineNumber, Matches := submatches,
                  Replace := decide (0 < repl.length), Replacement := res }], res)
  else (result, m)

/-- The loop of `scan` over the lines the scanner returns; `scanErr` is what
`scanner.Err()` returns after the last line. -/
def scanLoop (env : Env) (re : Regexp) (scanErr : Option GoError) :
    List Str → Nat → fileRegexReplacer → World → fileRegexReplacer × World
  | [], _, frr, w =>
    match scanErr with
    | some e => ({ frr with err := some e }, w)
    | none => (frr, w)
  | line :: rest, lineNumber, frr, w =>
    let w1 := w.log (Event.scanLine lineNumber)
    let r := ReplaceAllStringFunc re line
      (onMatch env.unicode re frr.filePath frr.repl lineNumber) frr.result
    let frr1 := { frr with result := r.1 }
    if frr1.expectReplace then
      let w2 := w1.log (Event.writeString (r.2 ++ ['\n']))
      if env.writeFails lineNumber then ({ frr1 with err := some GoError.writeFailed }, w2)
      else scanLoop env re scanErr rest (lineNumber + 1)
        { frr1 with writer := frr1.writer ++ (r.2 ++ ['\n']) } w2
    else scanLoop env re scanErr rest (lineNumber + 1) frr1 w1

/-- What the scanner delivers on the bytes `content`: the lines, and the error
`scanner.Err()` reports after them. -/
def scannerRun (env : Env) (content : Str) : List Str × Option GoError :=
  let data := match env.readFault with
    | some n => content.take n
    | none => content
  let r := scanLines [] data
  (r.1, if r.2 ∨ env.readFault.isSome then some GoError.scanFailed else none)

/-- The method `scan`.  With `err = nil` the pattern is compiled and the scanner is set,
so the last case is not reached from `RegexReplaceFile` (`newFileRegexReplacer_ready`). -/
def fileRegexReplacer.scan (env : Env) (frr : fileRegexReplacer) (w : World) :
    fileRegexReplacer × World :=
  if frr.err.isSome then (frr, w)
  else
    match frr.regex, frr.scanner with
    | some re, some content =>
      scanLoop env re (scannerRun env content).2 (scannerRun env content).1 0 frr w
    | _, _ => (frr, w)

/-- The method `replace`: flush the writer, rename the temporary file over the source,
set the mode `0666`.  The bytes given to the buffered writer reach the temporary file at
the latest with the flush; the model puts them there at the flush.  With `err = nil` and
a replacement expected the temporary file is set, so the case of a nil handle is not
reached from `RegexReplaceFile` (`newFileRegexReplacer_ready`). -/
def fileRegexReplacer.replace (env : Env) (frr : fileRegexReplacer) (w : World) :
    fileRegexReplacer × World :=
  if frr.err.isSome ∨ ¬ frr.expectReplace then (frr, w)
  else
    match frr.tempFile with
    | none => (frr, w)
    | some name =>
      let w1 := w.log (Event.flush name)
      if env.flushFails then ({ frr with err := some GoError.flushFailed }, w1)
      else
        let w2 := w1.put name ((w1.fs name).map (fun f => { f with content := frr.writer }))
        let w3 := w2.log (Event.rename name frr.filePath)
        if env.renameFails then ({ frr with err := some GoError.renameFailed }, w3)
        else
          let w4 := (w3.put frr.filePath (w3.fs name)).put name none
          let w5 := w4.log (Event.chmod frr.filePath 0o666)
          if env.chmodFails then ({ frr with err := some GoError.chmodFailed }, w5)
          else
            (frr, w5.put frr.filePath ((w5.fs frr.filePath).map (fun f => { f with mode := 0o666 })))

/-- The method `close`: close the source, close and remove the temporary file. -/
def fileRegexReplacer.close (frr : fileRegexReplacer) (w : World) : World :=
  let w1 := match frr.file with
    | some p => w.log (Event.closeFile p)
    | none => w
  match frr.tempFile with
  | some name => ((w1.log (Event.closeFile name)).log (Event.remove name)).put name none
  | none => w1

/-- What a call returns and the world it leaves. -/
structure Outcome where
  result : List MatchedLine
  err : Option GoError
  world : World

/-- The function `RegexReplaceFile`. -/
def RegexReplaceFile (env : Env) (w : World) (filepath regexPattern repl : Str) : Outcome :=
  let s0 := newFileRegexReplacer env w filepath regexPattern repl
  let s1 := s0.1.scan env s0.2
  let s2 := s1.1.replace env s1.2
  { result := s2.1.result, err := s2.1.err, world := s2.1.close s2.2 }

/-! ## The line transformation, in the words of the specification

The matches of a line from left to right, the records they give and the line with the
matches replaced, stated without the output buffer and the callback of `regexp`. -/

/-- The matches the search of `regexp` accepts in `src` from position `searchPos` on,
from left to right: a match of the empty string right after the previous match (which
ended at `lastMatchEnd`) is passed over. -/
def foundLoop (re : Regexp) (src : Str) : Nat → Nat → Nat → List MatchLoc
  | 0, _, _ => []
  | fuel + 1, lastMatchEnd, searchPos =>
    if searchPos ≤ src.length then
      match re.exec src searchPos with
      | none => []
      | some a =>
        if replaces lastMatchEnd a then
          a :: foundLoop re src fuel a.whole.stop (advance src searchPos a)
        else foundLoop re src fuel a.whole.stop (advance src searchPos a)
    else []

/-- The non-overlapping matches of the pattern in the line `src`, from left to right. -/
def foundMatches (re : Regexp) (src : Str) : List MatchLoc :=
  foundLoop re src (src.length + 1) 0 0

/-- The text of the match `a` of `src`. -/
def matchText (src : Str) (a : MatchLoc) : Str := slice src a.whole.start a.whole.stop

/-- The string `src` from position `last` on, with each match `a` of the list giving way
to `f a`. -/
def spliceFrom (src : Str) (f : MatchLoc → Str) : Nat → List MatchLoc → Str
  | last, [] => src.drop last
  | last, a :: rest =>
    slice src last a.whole.start ++ f a ++ spliceFrom src f a.whole.stop rest

/-- The resolved replacement of a match: the template with the placeholders replaced
from the submatches the pattern has on the text of the match taken alone. -/
def resolvedReplacement (u : Unicode) (re : Regexp) (repl : Str) (m : Str) : Str :=
  if 0 < repl.length then substituteLoop u repl (FindStringSubmatch re m) 0 repl else repl

/-- What a match with text `m` is replaced by: its resolved replacement, or `m` itself
when the pattern does not match `m` taken alone. -/
def matchOutput (u : Unicode) (re : Regexp) (repl : Str) (m : Str) : Str :=
  if 0 < (FindStringSubmatch re m).length then resolvedReplacement u re repl m else m

/-- The record of a match with text `m` in line `lineNumber`: none when the pattern
does not match `m` taken alone. -/
def matchRecord (u : Unicode) (re : Regexp) (filePath repl : Str) (lineNumber : Nat) (m : Str) :
    Option MatchedLine :=
  if 0 < (FindStringSubmatch re m).length then
    some { FilePath := filePath, LineNumber := lineNumber, Matches := FindStringSubmatch re m,
           Replace := decide (0 < repl.length), Replacement := resolvedReplacement u re repl m }
  else none

/-- The records of line `lineNumber`: one for each match whose text the pattern matches
again. -/
def lineRecords (u : Unicode) (re : Regexp) (filePath repl : Str) (lineNumber : Nat)
    (line : Str) :
    List MatchedLine :=
  (foundMatches re line).filterMap
    (fun a => matchRecord u re filePath repl lineNumber (matchText line a))

/-- The line with its matches replaced. -/
def lineOutput (u : Unicode) (re : Regexp) (repl : Str) (line : Str) : Str :=
  spliceFrom line (fun a => matchOutput u re repl (matchText line a)) 0 (foundMatches re line)

/-- The records of the lines `lines`, the first of which has number `k`. -/
def fileRecords (u : Unicode) (re : Regexp) (filePath repl : Str) :
    Nat → List Str → List MatchedLine
  | _, [] => []
  | k, line :: rest =>
    lineRecords u re filePath repl k line ++ fileRecords u re filePath repl (k + 1) rest

/-- The bytes written for the lines `lines`: each line with its matches replaced,
followed by one newline. -/
def fileOutput (u : Unicode) (re : Regexp) (repl : Str) (lines : List Str) : Str :=
  (lines.map (fun l => lineOutput u re repl l ++ ['\n'])).flatten

/-- The matches of a line that give a record: those whose text the pattern matches again
when the text is taken alone. -/
def recordedMatches (re : Regexp) (line : Str) : List MatchLoc :=
  (foundMatches re line).filter
    (fun a => decide (0 < (FindStringSubmatch re (matchText line a)).length))

/-- For `k, k + 1, ...` in order, the index repeated as many times as the list of counts
says. -/
def repeatIndices : Nat → List Nat → List Nat
  | _, [] => []
  | k, c :: cs => List.replicate c k ++ repeatIndices (k + 1) cs

/-- The string `src` from position `last` on, with the matches of the list replaced from
the records `rs` of the line, taken in order: a match whose text the pattern matches
again when taken alone gives way to the `Replacement` of the next record, any other
match stays as it is. -/
def spliceRecords (re : Regexp) (src : Str) : Nat → List MatchLoc → List MatchedLine → Str
  | last, [], _ => src.drop last
  | last, a :: rest, rs =>
    if 0 < (FindStringSubmatch re (matchText src a)).length then
      match rs with
      | r :: more =>
        slice src last a.whole.start ++ r.Replacement ++ spliceRecords re src a.whole.stop rest more
      | [] =>
        slice src last a.whole.start ++ matchText src a ++ spliceRecords re src a.whole.stop rest []
    else
      slice src last a.whole.start ++ matchText src a ++ spliceRecords re src a.whole.stop rest rs

/-- The content built from the lines and the returned records `rs`: for the lines
`k, k + 1, ...` in order, the line with its matches replaced from the records whose
`LineNumber` is the number of the line, followed by one newline. -/
def contentFromRecords (re : Regexp) : Nat → List Str → List MatchedLine → Str
  | _, [], _ => []
  | k, line :: rest, rs =>
    spliceRecords re line 0 (foundMatches re line)
        (rs.filter (fun r => decide (r.LineNumber = k))) ++ ['\n'] ++
      contentFromRecords re (k + 1) rest rs

/-- No I/O step of a call on `filepath` fails: the file `f` is there and can be opened,
the temporary name is new, reading delivers the whole file and every line fits the
buffer of the scanner, and writing, flushing, renaming and changing the mode succeed. -/
structure NoFailure (env : Env) (w : World) (filepath : Str) (f : File) : Prop where
  opens : env.openFails = false
  present : w.fs filepath = some f
  temp : env.createTempFails = false
  fresh : w.fs env.tempName = none
  reads : env.readFault = none
  short : (scanLines [] f.content).2 = false
  writes : ∀ k, env.writeFails k = false
  flushes : env.flushFails = false
  renames : env.renameFails = false
  chmods : env.chmodFails = false

/-! ## Patterns, environments and files of the examples -/

/-- The pattern `image: (.*)$`. -/
def imagePattern : Regexp :=
  Re.toRegexp (Re.seq (Re.ofLiteral "image: ".toList)
    (Re.seq (Re.group 0 (Re.star Re.any)) Re.eol)) 1

/-- The pattern `price: (.*)$`. -/
def pricePattern : Regexp :=
  Re.toRegexp (Re.seq (Re.ofLiteral "price: ".toList)
    (Re.seq (Re.group 0 (Re.star Re.any)) Re.eol)) 1

/-- The pattern `a`. -/
def letterPattern : Regexp := Re.toRegexp (Re.lit 'a') 0

/-- The pattern `\Bb`: a `b` that does not start a word. -/
def innerPattern : Regexp := Re.toRegexp (Re.seq Re.noWordB (Re.lit 'b')) 0

/-- The pattern `(a)(b)(c)(d)(e)(f)(g)(h)(i)(j)`, with ten groups. -/
def tenGroupsPattern : Regexp :=
  Re.toRegexp
    (Re.seq (Re.group 0 (Re.lit 'a')) (Re.seq (Re.group 1 (Re.lit 'b'))
    (Re.seq (Re.group 2 (Re.lit 'c')) (Re.seq (Re.group 3 (Re.lit 'd'))
    (Re.seq (Re.group 4 (Re.lit 'e')) (Re.seq (Re.group 5 (Re.lit 'f'))
    (Re.seq (Re.group 6 (Re.lit 'g')) (Re.seq (Re.group 7 (Re.lit 'h'))
    (Re.seq (Re.group 8 (Re.lit 'i')) (Re.group 9 (Re.lit 'j')))))))))))
    10

/-- The function `regexp.Compile` on the patterns of the examples; `(` is a pattern Go
rejects (missing closing parenthesis). -/
def sampleCompile (pattern : Str) : Option Regexp :=
  if pattern = "image: (.*)$".toList then some imagePattern
  else if pattern = "price: (.*)$".toList then some pricePattern
  else if pattern = "a".toList then some letterPattern
  else if pattern = "\\Bb".toList then some innerPattern
  else if pattern = "(a)(b)(c)(d)(e)(f)(g)(h)(i)(j)".toList then some tenGroupsPattern
  else none

/-- The tables of package `unicode` on the characters below U+0100 (ASCII and Latin-1),
which hold all the text of the examples: the letters are the ASCII letters, `ª`, `µ`,
`º` and the characters from `À` to `ÿ` but `×` and `÷`; the digits are `0` to `9`. -/
def sampleUnicode : Unicode :=
  { IsLetter := fun c =>
      c.isAlpha || c.toNat == 0xAA || c.toNat == 0xB5 || c.toNat == 0xBA ||
        (decide (0xC0 ≤ c.toNat) && decide (c.toNat ≤ 0xFF) &&
          !(c.toNat == 0xD7) && !(c.toNat == 0xF7))
    IsDigit := fun c => c.isDigit }

/-- An environment in which nothing fails. -/
def sampleEnv : Env :=
  { unicode := sampleUnicode, compile := sampleCompile, tempName := "/tmp/tempfile-1.txt".toList, openFails := false,
    createTempFails := false, readFault := none, writeFails := fun _ => false,
    flushFails := false, renameFails := false, chmodFails := false }

/-- An environment in which the rename of the temporary file fails. -/
def renameFailsEnv : Env := { sampleEnv with renameFails := true }

/-- The path of the file of the examples. -/
def samplePath : Str := "app.yaml".toList

/-- A file system holding one file, with mode `0644`. -/
def sampleWorld (content : Str) : World :=
  { fs := fun p => if p = samplePath then some ⟨content, 0o644⟩ else none, trace := [] }

/-! ## The claims as the specification words them -/

/-- The submatches of the match `a` of the line `src`: the text of the whole match and
of each group. -/
def submatchesOf (src : Str) (a : MatchLoc) : List Str :=
  matchText src a :: a.groups.map (captureText src)

/-- Whether the placeholder token `tok` stands at the head of `s`: the characters of
`tok`, with no further digit after them (the token `$1` does not stand at the head of
`$10`). -/
def tokenAt (tok s : Str) : Bool :=
  tok.isPrefixOf s && !((s.drop tok.length).head?.any Char.isDigit)

/-- The string with every occurrence of the token `tok` replaced by the text `sub`
itself; `skip` counts the characters of a replaced token still to pass over. -/
def replaceToken (tok sub : Str) : Nat → Str → Str
  | _, [] => []
  | skip + 1, _ :: cs => replaceToken tok sub skip cs
  | 0, c :: cs =>
    if tokenAt tok (c :: cs) then sub ++ replaceToken tok sub (tok.length - 1) cs
    else c :: replaceToken tok sub 0 cs

/-- The passes of the substitution as section 4.1 of the specification words them: for
each index `i` in increasing order, if the token of `i` occurs in the template, every
occurrence of that token in the text so far is replaced by the captured text of
submatch `i`. -/
def specResolveLoop (template : Str) : List Str → Nat → Str → Str
  | [], _, result => result
  | sub :: rest, i, result =>
    if stringsContains template (placeholderLiteral i) then
      specResolveLoop template rest (i + 1) (replaceToken (placeholderLiteral i) sub 0 result)
    else specResolveLoop template rest (i + 1) result

/-- The resolved replacement of the specification: the template with the placeholders
replaced by the captured texts. -/
def specResolve (template : Str) (submatches : List Str) : Str :=
  specResolveLoop template submatches 0 template

/-- The line transformation `T` of the specification: the line with each left-to-right
non-overlapping match replaced by the resolved replacement of that match. -/
def specLineOutput (re : Regexp) (repl : Str) (line : Str) : Str :=
  spliceFrom line (fun a => specResolve repl (submatchesOf line a)) 0 (foundMatches re line)

/-- The content the specification gives the file: `T` of each line and one newline. -/
def specFileOutput (re : Regexp) (repl : Str) (lines : List Str) : Str :=
  (lines.map (fun l => specLineOutput re repl l ++ ['\n'])).flatten

/-- The number of lines that match the pattern. -/
def matchingLines (re : Regexp) (lines : List Str) : Nat :=
  (lines.filter (fun l => (re.exec l 0).isSome)).length

/-! ## Lemmas on the library model -/

theorem advance_ge_stop (src : Str) (searchPos : Nat) (a : MatchLoc) :
    a.whole.stop ≤ advance src searchPos a := by
  unfold advance runeWidth
  split_ifs <;> omega

theorem advance_gt (src : Str) (searchPos : Nat) (a : MatchLoc) (h : searchPos ≤ a.whole.stop) :
    searchPos < advance src searchPos a := by
  unfold advance runeWidth
  split_ifs <;> omega

/-- For a sound pattern, fuel beyond `src.length + 1 - searchPos` does not change
`replaceAllLoop`: the loop ends by itself. -/
theorem replaceAllLoop_fuel {σ : Type} (re : Regexp) (hre : re.Sound) (src : Str)
    (repl : σ → MatchLoc → σ × Str) :
    ∀ (f1 f2 last pos : Nat) (buf : Str) (st : σ),
      src.length + 1 ≤ f1 + pos → src.length + 1 ≤ f2 + pos →
      replaceAllLoop re src repl f1 last pos buf st = replaceAllLoop re src repl f2 last pos buf st := by
  intro f1
  induction f1 with
  | zero =>
    intro f2 last pos buf st h1 _
    have hp : ¬ pos ≤ src.length := by omega
    cases f2 with
    | zero => rfl
    | succ f2 => simp [replaceAllLoop, hp]
  | succ f1 ih =>
    intro f2 last pos buf st h1 h2
    cases f2 with
    | zero =>
      have hp : ¬ pos ≤ src.length := by omega
      simp [replaceAllLoop, hp]
    | succ f2 =>
      by_cases hp : pos ≤ src.length
      · simp only [replaceAllLoop, hp, if_true]
        cases hx : re.exec src pos with
        | none => rfl
        | some a =>
          have hs := hre src pos a hx
          have hadv := advance_gt src pos a (by omega)
          simp only []
          split_ifs
          · exact ih f2 _ _ _ _ (by omega) (by omega)
          · exact ih f2 _ _ _ _ (by omega) (by omega)
      · simp [replaceAllLoop, hp]

/-- Fuel beyond `src.length + 1 - searchPos` does not change `foundLoop` either. -/
theorem foundLoop_fuel (re : Regexp) (hre : re.Sound) (src : Str) :
    ∀ (f1 f2 last pos : Nat), src.length + 1 ≤ f1 + pos → src.length + 1 ≤ f2 + pos →
      foundLoop re src f1 last pos = foundLoop re src f2 last pos := by
  intro f1
  induction f1 with
  | zero =>
    intro f2 last pos h1 _
    have hp : ¬ pos ≤ src.length := by omega
    cases f2 with
    | zero => rfl
    | succ f2 => simp [foundLoop, hp]
  | succ f1 ih =>
    intro f2 last pos h1 h2
    cases f2 with
    | zero =>
      have hp : ¬ pos ≤ src.length := by omega
      simp [foundLoop, hp]
    | succ f2 =>
      by_cases hp : pos ≤ src.length
      · simp only [foundLoop, hp, if_true]
        cases hx : re.exec src pos with
        | none => rfl
        | some a =>
          have hs := hre src pos a hx
          have hadv := advance_gt src pos a (by omega)
          simp only []
          rw [ih f2 a.whole.stop (advance src pos a) (by omega) (by omega)]
      · simp [foundLoop, hp]

theorem cut_length (sep : Char) : ∀ (t before after : Str),
    cut sep t = some (before, after) → after.length < t.length := by
  intro t
  induction t with
  | nil => intro b a h; simp [cut] at h
  | cons c cs ih =>
    intro b a h
    simp only [cut] at h
    by_cases hc : c = sep
    · simp only [hc, if_true, Option.some.injEq, Prod.mk.injEq] at h
      rw [← h.2]
      simp
    · simp only [hc, if_false] at h
      cases hcs : cut sep cs with
      | none => simp [hcs] at h
      | some ba =>
        obtain ⟨b1, a1⟩ := ba
        simp only [hcs, Option.some.injEq, Prod.mk.injEq] at h
        have := ih b1 a1 hcs
        rw [← h.2]
        simp only [List.length_cons]
        omega

theorem length_dropWhile_le (p : Char → Bool) : ∀ (l : Str), (l.dropWhile p).length ≤ l.length := by
  intro l
  induction l with
  | nil => simp
  | cons c cs ih =>
    simp only [List.dropWhile_cons]
    split
    · simp only [List.length_cons]
      omega
    · exact le_refl _

theorem extract_length {u : Unicode} (str : Str) (num : Option Nat) (rest : Str)
    (h : extract u str = some (num, rest)) : rest.length ≤ str.length := by
  unfold extract at h
  by_cases hb : str.head? = some '{'
  · have h1 : str.tail.length ≤ str.length := by simp
    have h2 := length_dropWhile_le (isNameChar u) str.tail
    by_cases hn : str.tail.takeWhile (isNameChar u) = []
    · simp [hb, hn] at h
    · simp only [hb, if_true, hn, if_false] at h
      split at h
      · rename_i rest1 heq
        simp only [Option.some.injEq, Prod.mk.injEq] at h
        rw [heq] at h2
        rw [← h.2]
        simp only [List.length_cons] at h2
        omega
      · exact Option.noConfusion h
  · have h2 := length_dropWhile_le (isNameChar u) str
    by_cases hn : str.takeWhile (isNameChar u) = []
    · simp [hb, hn] at h
    · simp only [hb, if_false, hn] at h
      simp only [Option.some.injEq, Prod.mk.injEq] at h
      rw [← h.2]
      exact h2

/-- Fuel beyond the length of the template does not change `expandLoop`: the loop ends
by itself. -/
theorem expandLoop_fuel {u : Unicode} (src : Str) (a : MatchLoc) :
    ∀ (f1 f2 : Nat) (template dst : Str), template.length < f1 → template.length < f2 →
      expandLoop u src a f1 template dst = expandLoop u src a f2 template dst := by
  intro f1
  induction f1 with
  | zero => intro f2 t dst h1 _; omega
  | succ f1 ih =>
    intro f2 t dst h1 h2
    cases f2 with
    | zero => omega
    | succ f2 =>
      simp only [expandLoop]
      cases hcut : cut '$' t with
      | none => rfl
      | some ba =>
        obtain ⟨before, after⟩ := ba
        have hlen := cut_length '$' t before after hcut
        simp only []
        split
        · rename_i rest
          apply ih
          · simp only [List.length_cons] at hlen
            omega
          · simp only [List.length_cons] at hlen
            omega
        · split
          · exact ih f2 _ _ (by omega) (by omega)
          · rename_i num rest hex
            have := extract_length _ _ _ hex
            exact ih f2 _ _ (by omega) (by omega)
          · rename_i rest hex
            have := extract_length _ _ _ hex
            exact ih f2 _ _ (by omega) (by omega)

theorem onMatch_eq {u : Unicode} (re : Regexp) (fp repl : Str) (k : Nat) (R : List MatchedLine) (m : Str) :
    onMatch u re fp repl k R m =
      (R ++ (matchRecord u re fp repl k m).toList, matchOutput u re repl m) := by
  unfold onMatch matchRecord matchOutput resolvedReplacement
  by_cases h : 0 < (FindStringSubmatch re m).length
  · simp [h]
  · simp [h]

theorem slice_self (s : Str) (i : Nat) : slice s i i = [] := by
  unfold slice
  apply List.drop_eq_nil_of_le
  simp

/-- The loop of `replaceAll` with the closure of `scan`: the records of the accepted
matches are appended to the result, and the output is the line with these matches
replaced. -/
theorem replaceAllLoop_onMatch {u : Unicode} (re : Regexp) (hre : re.Sound) (src fp repl : Str) (k : Nat) :
    ∀ (fuel last pos : Nat) (buf : Str) (R : List MatchedLine), last ≤ pos →
      replaceAllLoop re src
        (fun s a => onMatch u re fp repl k s (slice src a.whole.start a.whole.stop))
        fuel last pos buf R =
      (R ++ (foundLoop re src fuel last pos).filterMap
          (fun a => matchRecord u re fp repl k (matchText src a)),
       buf ++ spliceFrom src (fun a => matchOutput u re repl (matchText src a)) last
          (foundLoop re src fuel last pos)) := by
  intro fuel
  induction fuel with
  | zero =>
    intro last pos buf R _
    simp [replaceAllLoop, foundLoop, spliceFrom]
  | succ fuel ih =>
    intro last pos buf R hlp
    by_cases hp : pos ≤ src.length
    · simp only [replaceAllLoop, foundLoop, hp, if_true]
      cases hx : re.exec src pos with
      | none => simp [spliceFrom]
      | some a =>
        have hs := hre src pos a hx
        have hadv := advance_ge_stop src pos a
        simp only []
        by_cases hr : replaces last a = true
        · simp only [hr, if_true]
          rw [ih _ _ _ _ hadv, onMatch_eq]
          simp only [List.filterMap_cons, spliceFrom, matchText]
          cases hrec : matchRecord u re fp repl k (slice src a.whole.start a.whole.stop) <;>
            simp [List.append_assoc]
        · rw [if_neg hr, if_neg hr]
          have hr2 : ¬ (a.whole.stop > last ∨ a.whole.start = 0) := by
            simpa [replaces] using hr
          have h1 : a.whole.start = last := by omega
          have h2 : a.whole.stop = last := by omega
          rw [ih _ _ _ _ hadv, h1, h2, slice_self]
          simp
    · simp [replaceAllLoop, foundLoop, hp, spliceFrom]

/-- The call of `ReplaceAllStringFunc` in `scan`, in the words of the specification. -/
theorem ReplaceAllStringFunc_onMatch {u : Unicode} (re : Regexp) (hre : re.Sound) (line fp repl : Str)
    (k : Nat) (R : List MatchedLine) :
    ReplaceAllStringFunc re line (onMatch u re fp repl k) R =
      (R ++ lineRecords u re fp repl k line, lineOutput u re repl line) := by
  unfold ReplaceAllStringFunc replaceAll lineRecords lineOutput foundMatches
  rw [replaceAllLoop_onMatch re hre line fp repl k _ 0 0 [] R (le_refl 0)]
  simp

/-! ## The matcher of the examples is sound -/

theorem starLoop_sound {R : Type} (len : Nat)
    (step : Nat → List (Option Loc) → (Nat → List (Option Loc) → Option R) → Option R)
    (hstep : ∀ (pos : Nat) (caps : List (Option Loc)) (k : Nat → List (Option Loc) → Option R)
      (res : R), pos ≤ len → step pos caps k = some res →
      ∃ p c, pos ≤ p ∧ p ≤ len ∧ k p c = some res) :
    ∀ (fuel pos : Nat) (caps : List (Option Loc)) (k : Nat → List (Option Loc) → Option R)
      (res : R), pos ≤ len → starLoop step fuel pos caps k = some res →
      ∃ p c, pos ≤ p ∧ p ≤ len ∧ k p c = some res := by
  intro fuel
  induction fuel with
  | zero =>
    intro pos caps k res hp h
    exact ⟨pos, caps, le_refl _, hp, h⟩
  | succ fuel ih =>
    intro pos caps k res hp h
    simp only [starLoop] at h
    cases hs : step pos caps (fun p c => if pos < p then starLoop step fuel p c k else none) with
    | none =>
      rw [hs] at h
      exact ⟨pos, caps, le_refl _, hp, h⟩
    | some r =>
      rw [hs] at h
      obtain ⟨p1, c1, hp1, hp1len, hk⟩ := hstep pos caps _ r hp hs
      by_cases hlt : pos < p1
      · simp only [hlt, if_true] at hk
        obtain ⟨p2, c2, hp2, hp2len, hk2⟩ := ih p1 c1 k r hp1len hk
        refine ⟨p2, c2, by omega, hp2len, ?_⟩
        rw [hk2]
        exact h
      · simp [hlt] at hk

theorem Re.run_sound {R : Type} (s : Str) (r : Re) :
    ∀ (pos : Nat) (caps : List (Option Loc)) (k : Nat → List (Option Loc) → Option R) (res : R),
      pos ≤ s.length → Re.run s r pos caps k = some res →
      ∃ p c, pos ≤ p ∧ p ≤ s.length ∧ k p c = some res := by
  induction r with
  | empty =>
    intro pos caps k res hp h
    exact ⟨pos, caps, le_refl _, hp, h⟩
  | lit ch =>
    intro pos caps k res hp h
    simp only [Re.run] at h
    by_cases hc : s[pos]? = some ch
    · simp only [hc, if_true] at h
      have hlt : pos < s.length := by
        by_contra hge
        rw [List.getElem?_eq_none (by omega)] at hc
        exact Option.noConfusion hc
      exact ⟨pos + 1, caps, by omega, by omega, h⟩
    · simp [hc] at h
  | any =>
    intro pos caps k res hp h
    simp only [Re.run] at h
    cases hc : s[pos]? with
    | none => simp [hc] at h
    | some ch =>
      have hlt : pos < s.length := by
        by_contra hge
        rw [List.getElem?_eq_none (by omega)] at hc
        exact Option.noConfusion hc
      simp only [hc] at h
      by_cases hn : ch = '\n'
      · simp [hn] at h
      · simp only [hn, if_false] at h
        exact ⟨pos + 1, caps, by omega, by omega, h⟩
  | seq a b iha ihb =>
    intro pos caps k res hp h
    simp only [Re.run] at h
    obtain ⟨p1, c1, h1, h1len, hk1⟩ := iha pos caps _ res hp h
    obtain ⟨p2, c2, h2, h2len, hk2⟩ := ihb p1 c1 k res h1len hk1
    exact ⟨p2, c2, by omega, h2len, hk2⟩
  | alt a b iha ihb =>
    intro pos caps k res hp h
    simp only [Re.run] at h
    cases ha : Re.run s a pos caps k with
    | none =>
      rw [ha] at h
      exact ihb pos caps k res hp h
    | some r1 =>
      rw [ha] at h
      obtain ⟨p1, c1, h1, h1len, hk1⟩ := iha pos caps k r1 hp ha
      refine ⟨p1, c1, h1, h1len, ?_⟩
      rw [hk1]
      exact h
  | star a iha =>
    intro pos caps k res hp h
    simp only [Re.run] at h
    exact starLoop_sound s.length (Re.run s a) iha _ pos caps k res hp h
  | group i a iha =>
    intro pos caps k res hp h
    simp only [Re.run] at h
    obtain ⟨p1, c1, h1, h1len, hk1⟩ := iha pos caps _ res hp h
    exact ⟨p1, _, h1, h1len, hk1⟩
  | bol =>
    intro pos caps k res hp h
    simp only [Re.run] at h
    by_cases hc : pos = 0
    · simp only [hc, if_true] at h
      exact ⟨0, caps, by omega, by omega, h⟩
    · simp [hc] at h
  | eol =>
    intro pos caps k res hp h
    simp only [Re.run] at h
    by_cases hc : pos = s.length
    · simp only [hc, if_true] at h
      exact ⟨s.length, caps, by omega, by omega, h⟩
    · simp [hc] at h
  | wordB =>
    intro pos caps k res hp h
    simp only [Re.run] at h
    by_cases hc : atWordBoundary s pos = true
    · simp only [hc, if_true] at h
      exact ⟨pos, caps, le_refl _, hp, h⟩
    · simp [hc] at h
  | noWordB =>
    intro pos caps k res hp h
    simp only [Re.run] at h
    by_cases hc : atWordBoundary s pos = true
    · simp [hc] at h
    · simp only [hc] at h
      exact ⟨pos, caps, le_refl _, hp, by simpa using h⟩

theorem Re.search_sound (r : Re) (n : Nat) (s : Str) :
    ∀ (fuel pos : Nat) (a : MatchLoc), fuel + pos ≤ s.length + 1 →
      Re.search r n s fuel pos = some a →
      pos ≤ a.whole.start ∧ a.whole.start ≤ a.whole.stop ∧ a.whole.stop ≤ s.length := by
  intro fuel
  induction fuel with
  | zero =>
    intro pos a _ h
    simp [Re.search] at h
  | succ fuel ih =>
    intro pos a hf h
    simp only [Re.search] at h
    cases hr : Re.run s r pos (List.replicate n none)
        (fun p c => some (MatchLoc.mk ⟨pos, p⟩ c)) with
    | none =>
      rw [hr] at h
      have := ih (pos + 1) a (by omega) h
      omega
    | some m =>
      rw [hr] at h
      obtain ⟨p, c, hp, hplen, hk⟩ := Re.run_sound s r pos _ _ m (by omega) hr
      have hm : a = MatchLoc.mk ⟨pos, p⟩ c := by
        have h1 : some (MatchLoc.mk ⟨pos, p⟩ c) = some a := by rw [hk]; exact h
        exact (Option.some.inj h1).symm
      subst hm
      exact ⟨le_refl _, hp, hplen⟩

/-- Every pattern of the matcher is sound. -/
theorem Re.toRegexp_sound (r : Re) (n : Nat) : (Re.toRegexp r n).Sound := by
  intro src pos a h
  by_cases hp : pos ≤ src.length
  · exact Re.search_sound r n src _ pos a (by omega) h
  · have h0 : src.length + 1 - pos = 0 := by omega
    simp [Re.toRegexp, h0, Re.search] at h

/-- Two continuations that agree from `pos` on give the same iteration. -/
theorem starLoop_congr {R : Type} (len : Nat)
    (step : Nat → List (Option Loc) → (Nat → List (Option Loc) → Option R) → Option R)
    (hstep : ∀ (pos : Nat) (caps : List (Option Loc))
      (k1 k2 : Nat → List (Option Loc) → Option R), pos ≤ len →
      (∀ p c, pos ≤ p → p ≤ len → k1 p c = k2 p c) → step pos caps k1 = step pos caps k2) :
    ∀ (fuel pos : Nat) (caps : List (Option Loc)) (k1 k2 : Nat → List (Option Loc) → Option R),
      pos ≤ len → (∀ p c, pos ≤ p → p ≤ len → k1 p c = k2 p c) →
      starLoop step fuel pos caps k1 = starLoop step fuel pos caps k2 := by
  intro fuel
  induction fuel with
  | zero =>
    intro pos caps k1 k2 hp h
    exact h pos caps (le_refl _) hp
  | succ fuel ih =>
    intro pos caps k1 k2 hp h
    simp only [starLoop]
    rw [hstep pos caps (fun p c => if pos < p then starLoop step fuel p c k1 else none)
      (fun p c => if pos < p then starLoop step fuel p c k2 else none) hp
      (fun p c hpp hpl => by
        by_cases hlt : pos < p
        · simp only [hlt, if_true]
          exact ih p c k1 k2 hpl (fun q d hq hql => h q d (by omega) hql)
        · simp only [hlt, if_false]),
      h pos caps (le_refl _) hp]

/-- The result of the backtracking depends on the continuation only at the positions of
the string from `pos` on. -/
theorem Re.run_congr {R : Type} (s : Str) (r : Re) :
    ∀ (pos : Nat) (caps : List (Option Loc)) (k1 k2 : Nat → List (Option Loc) → Option R),
      pos ≤ s.length → (∀ p c, pos ≤ p → p ≤ s.length → k1 p c = k2 p c) →
      Re.run s r pos caps k1 = Re.run s r pos caps k2 := by
  induction r with
  | empty =>
    intro pos caps k1 k2 hp h
    exact h pos caps (le_refl _) hp
  | lit ch =>
    intro pos caps k1 k2 hp h
    simp only [Re.run]
    by_cases hc : s[pos]? = some ch
    · have hlt : pos < s.length := by
        by_contra hge
        rw [List.getElem?_eq_none (by omega)] at hc
        exact Option.noConfusion hc
      simp only [hc, if_true]
      exact h (pos + 1) caps (by omega) (by omega)
    · simp only [hc, if_false]
  | any =>
    intro pos caps k1 k2 hp h
    simp only [Re.run]
    cases hc : s[pos]? with
    | none => rfl
    | some ch =>
      have hlt : pos < s.length := by
        by_contra hge
        rw [List.getElem?_eq_none (by omega)] at hc
        exact Option.noConfusion hc
      simp only []
      rw [h (pos + 1) caps (by omega) (by omega)]
  | seq a b iha ihb =>
    intro pos caps k1 k2 hp h
    simp only [Re.run]
    exact iha pos caps _ _ hp (fun p c hpp hpl =>
      ihb p c k1 k2 hpl (fun q d hq hql => h q d (by omega) hql))
  | alt a b iha ihb =>
    intro pos caps k1 k2 hp h
    simp only [Re.run]
    rw [iha pos caps k1 k2 hp h, ihb pos caps k1 k2 hp h]
  | star a iha =>
    intro pos caps k1 k2 hp h
    simp only [Re.run]
    exact starLoop_congr s.length (Re.run s a) iha _ pos caps k1 k2 hp h
  | group i a iha =>
    intro pos caps k1 k2 hp h
    simp only [Re.run]
    exact iha pos caps _ _ hp (fun p c hpp hpl => h p _ hpp hpl)
  | bol =>
    intro pos caps k1 k2 hp h
    simp only [Re.run]
    rw [h pos caps (le_refl _) hp]
  | eol =>
    intro pos caps k1 k2 hp h
    simp only [Re.run]
    rw [h pos caps (le_refl _) hp]
  | wordB =>
    intro pos caps k1 k2 hp h
    simp only [Re.run]
    rw [h pos caps (le_refl _) hp]
  | noWordB =>
    intro pos caps k1 k2 hp h
    simp only [Re.run]
    rw [h pos caps (le_refl _) hp]

/-- Fuel beyond `s.length + 1 - pos` does not change the iteration of a pattern: the
loop ends by itself. -/
theorem starLoop_fuel {R : Type} (s : Str) (a : Re) :
    ∀ (f1 f2 pos : Nat) (caps : List (Option Loc)) (k : Nat → List (Option Loc) → Option R),
      pos ≤ s.length → s.length + 1 ≤ f1 + pos → s.length + 1 ≤ f2 + pos →
      starLoop (Re.run s a) f1 pos caps k = starLoop (Re.run s a) f2 pos caps k := by
  intro f1
  induction f1 with
  | zero => intro f2 pos caps k hp h1 _; omega
  | succ f1 ih =>
    intro f2 pos caps k hp h1 h2
    cases f2 with
    | zero => omega
    | succ f2 =>
      simp only [starLoop]
      rw [Re.run_congr s a pos caps
        (fun p c => if pos < p then starLoop (Re.run s a) f1 p c k else none)
        (fun p c => if pos < p then starLoop (Re.run s a) f2 p c k else none) hp
        (fun p c hpp hpl => by
          by_cases hlt : pos < p
          · simp only [hlt, if_true]
            exact ih f2 p c k hpl (by omega) (by omega)
          · simp only [hlt, if_false])]

/-! ## Lemmas on `scan` -/

/-- The loop of `scan` leaves the file system and the handles alone. -/
theorem scanLoop_frame (env : Env) (re : Regexp) (se : Option GoError) :
    ∀ (lines : List Str) (k : Nat) (frr : fileRegexReplacer) (w : World),
      (scanLoop env re se lines k frr w).2.fs = w.fs ∧
      (scanLoop env re se lines k frr w).1.tempFile = frr.tempFile ∧
      (scanLoop env re se lines k frr w).1.file = frr.file ∧
      (scanLoop env re se lines k frr w).1.filePath = frr.filePath ∧
      (scanLoop env re se lines k frr w).1.repl = frr.repl := by
  intro lines
  induction lines with
  | nil =>
    intro k frr w
    cases se <;> simp [scanLoop]
  | cons line rest ih =>
    intro k frr w
    simp only [scanLoop]
    split_ifs
    · simp [World.log]
    · have h := ih (k + 1)
        { frr with
          result := (ReplaceAllStringFunc re line (onMatch env.unicode re frr.filePath frr.repl k) frr.result).1,
          writer := frr.writer ++
            ((ReplaceAllStringFunc re line (onMatch env.unicode re frr.filePath frr.repl k) frr.result).2 ++ ['\n']) }
        ((w.log (Event.scanLine k)).log (Event.writeString
          ((ReplaceAllStringFunc re line (onMatch env.unicode re frr.filePath frr.repl k) frr.result).2 ++ ['\n'])))
      simpa [World.log] using h
    · have h := ih (k + 1)
        { frr with
          result := (ReplaceAllStringFunc re line (onMatch env.unicode re frr.filePath frr.repl k) frr.result).1 }
        (w.log (Event.scanLine k))
      simpa [World.log] using h

/-- The loop of `scan` when a replacement is expected and no write fails. -/
theorem scanLoop_replace (env : Env) (re : Regexp) (hre : re.Sound) (se : Option GoError)
    (hw : ∀ j, env.writeFails j = false) :
    ∀ (lines : List Str) (k : Nat) (frr : fileRegexReplacer) (w : World),
      0 < frr.repl.length →
      (scanLoop env re se lines k frr w).1.result =
        frr.result ++ fileRecords env.unicode re frr.filePath frr.repl k lines ∧
      (scanLoop env re se lines k frr w).1.writer = frr.writer ++ fileOutput env.unicode re frr.repl lines ∧
      (scanLoop env re se lines k frr w).1.err = (if se.isSome then se else frr.err) := by
  intro lines
  induction lines with
  | nil =>
    intro k frr w _
    cases se <;> simp [scanLoop, fileRecords, fileOutput]
  | cons line rest ih =>
    intro k frr w hrepl
    simp only [scanLoop, fileRegexReplacer.expectReplace, hrepl, decide_True, if_true, hw,
      ReplaceAllStringFunc_onMatch re hre]
    have h := ih (k + 1)
      { frr with
        result := frr.result ++ lineRecords env.unicode re frr.filePath frr.repl k line,
        writer := frr.writer ++ (lineOutput env.unicode re frr.repl line ++ ['\n']) }
      ((w.log (Event.scanLine k)).log (Event.writeString (lineOutput env.unicode re frr.repl line ++ ['\n'])))
      hrepl
    simpa [fileRecords, fileOutput, List.append_assoc] using h

/-- The loop of `scan` when no replacement is expected. -/
theorem scanLoop_report (env : Env) (re : Regexp) (hre : re.Sound) (se : Option GoError) :
    ∀ (lines : List Str) (k : Nat) (frr : fileRegexReplacer) (w : World),
      frr.repl = [] →
      (scanLoop env re se lines k frr w).1.result =
        frr.result ++ fileRecords env.unicode re frr.filePath frr.repl k lines ∧
      (scanLoop env re se lines k frr w).1.writer = frr.writer ∧
      (scanLoop env re se lines k frr w).1.err = (if se.isSome then se else frr.err) := by
  intro lines
  induction lines with
  | nil =>
    intro k frr w _
    cases se <;> simp [scanLoop, fileRecords]
  | cons line rest ih =>
    intro k frr w hrepl
    have hlen : ¬ (0 < frr.repl.length) := by simp [hrepl]
    simp only [scanLoop, fileRegexReplacer.expectReplace, hlen, decide_False, if_false,
      ReplaceAllStringFunc_onMatch re hre]
    have h := ih (k + 1)
      { frr with result := frr.result ++ lineRecords env.unicode re frr.filePath frr.repl k line }
      (w.log (Event.scanLine k)) hrepl
    simpa [fileRecords, List.append_assoc] using h

/-! ## Lemmas on the whole call -/

theorem scannerRun_ok (env : Env) (content : Str) (hr : env.readFault = none)
    (hs : (scanLines [] content).2 = false) :
    scannerRun env content = ((scanLines [] content).1, none) := by
  simp [scannerRun, hr, hs]

/-- The constructor when nothing fails and a replacement is expected. -/
theorem newFileRegexReplacer_replace_ok (env : Env) (w : World) (path pattern repl : Str)
    (re : Regexp) (f : File) (hnf : NoFailure env w path f) (hc : env.compile pattern = some re)
    (hrepl : 0 < repl.length) :
    newFileRegexReplacer env w path pattern repl =
      ({ filePath := path, regex := some re, repl := repl, file := some path,
         tempFile := some env.tempName, scanner := some f.content, writer := [], err := none,
         result := [] },
       ((w.log (Event.openFile path)).log (Event.createTemp env.tempName)).put env.tempName
          (some ⟨[], 0o600⟩)) := by
  simp [newFileRegexReplacer, hnf.opens, hnf.present, fileRegexReplacer.expectReplace, hrepl,
    hnf.temp, hnf.fresh, hc]

/-- A successful call with a replacement: no error, the records of all lines, the file
rewritten with mode `0666`, and no temporary file left. -/
theorem RegexReplaceFile_replace_ok (env : Env) (w : World) (path pattern repl : Str)
    (re : Regexp) (f : File) (hnf : NoFailure env w path f) (hc : env.compile pattern = some re)
    (hre : re.Sound) (hrepl : 0 < repl.length) :
    (RegexReplaceFile env w path pattern repl).err = none ∧
    (RegexReplaceFile env w path pattern repl).result =
      fileRecords env.unicode re path repl 0 (scanLines [] f.content).1 ∧
    (RegexReplaceFile env w path pattern repl).world.fs path =
      some ⟨fileOutput env.unicode re repl (scanLines [] f.content).1, 0o666⟩ ∧
    (RegexReplaceFile env w path pattern repl).world.fs env.tempName = none := by
  have hne : ¬ path = env.tempName := by
    intro h
    have hf := hnf.present
    rw [h, hnf.fresh] at hf
    exact Option.noConfusion hf
  have hne2 : ¬ env.tempName = path := fun h => hne h.symm
  have h0 := newFileRegexReplacer_replace_ok env w path pattern repl re f hnf hc hrepl
  have hrun := scannerRun_ok env f.content hnf.reads hnf.short
  unfold RegexReplaceFile
  rw [h0]
  simp only [fileRegexReplacer.scan, Option.isSome_none, Bool.false_eq_true, if_false, hrun]
  generalize hs1 : scanLoop env re none (scanLines [] f.content).1 0
      { filePath := path, regex := some re, repl := repl, file := some path,
        tempFile := some env.tempName, scanner := some f.content, writer := [], err := none,
        result := [] }
      (((w.log (Event.openFile path)).log (Event.createTemp env.tempName)).put env.tempName
        (some ⟨[], 0o600⟩)) = s1
  have hframe := scanLoop_frame env re none (scanLines [] f.content).1 0
      { filePath := path, regex := some re, repl := repl, file := some path,
        tempFile := some env.tempName, scanner := some f.content, writer := [], err := none,
        result := [] }
      (((w.log (Event.openFile path)).log (Event.createTemp env.tempName)).put env.tempName
        (some ⟨[], 0o600⟩))
  have hres := scanLoop_replace env re hre none hnf.writes (scanLines [] f.content).1 0
      { filePath := path, regex := some re, repl := repl, file := some path,
        tempFile := some env.tempName, scanner := some f.content, writer := [], err := none,
        result := [] }
      (((w.log (Event.openFile path)).log (Event.createTemp env.tempName)).put env.tempName
        (some ⟨[], 0o600⟩)) hrepl
  rw [hs1] at hframe hres
  obtain ⟨hfs, htemp, hfile, hpath, hrp⟩ := hframe
  obtain ⟨hresult, hwriter, herr⟩ := hres
  simp only [List.nil_append, Option.isSome_none, Bool.false_eq_true, if_false] at hresult hwriter herr
  dsimp only at htemp hfile hpath hrp
  have hrne : ¬ repl = [] := by
    intro h
    simp [h] at hrepl
  simp [fileRegexReplacer.replace, fileRegexReplacer.close, fileRegexReplacer.expectReplace,
    herr, hrne, htemp, hfile, hpath, hnf.flushes, hnf.renames, hnf.chmods, World.put, World.log,
    hfs, hne, hne2, hresult, hwriter, hrp]

/-- A successful call without a replacement: no error and the records of all lines. -/
theorem RegexReplaceFile_report_ok (env : Env) (w : World) (path pattern : Str)
    (re : Regexp) (f : File) (hnf : NoFailure env w path f) (hc : env.compile pattern = some re)
    (hre : re.Sound) :
    (RegexReplaceFile env w path pattern []).err = none ∧
    (RegexReplaceFile env w path pattern []).result =
      fileRecords env.unicode re path [] 0 (scanLines [] f.content).1 := by
  have hrun := scannerRun_ok env f.content hnf.reads hnf.short
  have h0 : newFileRegexReplacer env w path pattern [] =
      ({ filePath := path, regex := some re, repl := [], file := some path,
         tempFile := none, scanner := some f.content, writer := [], err := none,
         result := [] }, w.log (Event.openFile path)) := by
    simp [newFileRegexReplacer, hnf.opens, hnf.present, fileRegexReplacer.expectReplace, hc]
  unfold RegexReplaceFile
  rw [h0]
  simp only [fileRegexReplacer.scan, Option.isSome_none, Bool.false_eq_true, if_false, hrun]
  generalize hs1 : scanLoop env re none (scanLines [] f.content).1 0
      { filePath := path, regex := some re, repl := [], file := some path,
        tempFile := none, scanner := some f.content, writer := [], err := none,
        result := [] }
      (w.log (Event.openFile path)) = s1
  have hframe := scanLoop_frame env re none (scanLines [] f.content).1 0
      { filePath := path, regex := some re, repl := [], file := some path,
        tempFile := none, scanner := some f.content, writer := [], err := none,
        result := [] }
      (w.log (Event.openFile path))
  have hres := scanLoop_report env re hre none (scanLines [] f.content).1 0
      { filePath := path, regex := some re, repl := [], file := some path,
        tempFile := none, scanner := some f.content, writer := [], err := none,
        result := [] }
      (w.log (Event.openFile path)) rfl
  rw [hs1] at hframe hres
  obtain ⟨_, _, _, hpath, hrp⟩ := hframe
  obtain ⟨hresult, _, herr⟩ := hres
  simp only [List.nil_append, Option.isSome_none, Bool.false_eq_true, if_false] at hresult herr
  dsimp only at hpath hrp
  simp [fileRegexReplacer.replace, fileRegexReplacer.expectReplace, herr, hresult, hrp]

/-- The method `scan` leaves the file system and the handles alone. -/
theorem scan_frame (env : Env) (frr : fileRegexReplacer) (w : World) :
    (frr.scan env w).2.fs = w.fs ∧ (frr.scan env w).1.tempFile = frr.tempFile ∧
    (frr.scan env w).1.file = frr.file ∧ (frr.scan env w).1.filePath = frr.filePath ∧
    (frr.scan env w).1.repl = frr.repl := by
  unfold fileRegexReplacer.scan
  split_ifs
  · simp
  · split
    · exact scanLoop_frame env _ _ _ 0 frr w
    · simp

/-- The method `replace` does nothing when no replacement is expected. -/
theorem replace_of_empty (env : Env) (frr : fileRegexReplacer) (w : World) (h : frr.repl = []) :
    frr.replace env w = (frr, w) := by
  simp [fileRegexReplacer.replace, fileRegexReplacer.expectReplace, h]

/-- The method `replace` keeps the handles, and without a temporary file it keeps the
file system. -/
theorem replace_frame (env : Env) (frr : fileRegexReplacer) (w : World) :
    (frr.replace env w).1.tempFile = frr.tempFile ∧ (frr.replace env w).1.file = frr.file ∧
    (frr.tempFile = none → (frr.replace env w).2.fs = w.fs) := by
  unfold fileRegexReplacer.replace
  by_cases h1 : (frr.err.isSome = true ∨ ¬ frr.expectReplace = true)
  · rw [if_pos h1]
    simp
  · rw [if_neg h1]
    cases ht : frr.tempFile with
    | none => simp [ht]
    | some name =>
      cases env.flushFails <;> cases env.renameFails <;> cases env.chmodFails <;> simp [ht]

/-- With no replacement expected the loop of `scan` makes no call but reading lines. -/
theorem scanLoop_trace_report (env : Env) (re : Regexp) (se : Option GoError) :
    ∀ (lines : List Str) (k : Nat) (frr : fileRegexReplacer) (w : World), frr.repl = [] →
      ∃ evs, (scanLoop env re se lines k frr w).2.trace = w.trace ++ evs ∧
        ∀ e ∈ evs, ∃ n, e = Event.scanLine n := by
  intro lines
  induction lines with
  | nil =>
    intro k frr w _
    refine ⟨[], ?_, by simp⟩
    cases se <;> simp [scanLoop]
  | cons line rest ih =>
    intro k frr w hrepl
    have hlen : ¬ (0 < frr.repl.length) := by simp [hrepl]
    simp only [scanLoop, fileRegexReplacer.expectReplace, hlen, decide_False, if_false,
      Bool.false_eq_true]
    obtain ⟨evs, h1, h2⟩ := ih (k + 1)
      { frr with
        result := (ReplaceAllStringFunc re line (onMatch env.unicode re frr.filePath frr.repl k) frr.result).1 }
      (w.log (Event.scanLine k)) hrepl
    refine ⟨Event.scanLine k :: evs, ?_, ?_⟩
    · rw [h1]
      simp [World.log]
    · intro e he
      rcases List.mem_cons.mp he with h | h
      · exact ⟨k, h⟩
      · exact h2 e h

/-- With no replacement expected `scan` makes no call but reading lines. -/
theorem scan_trace_report (env : Env) (frr : fileRegexReplacer) (w : World) (h : frr.repl = []) :
    ∃ evs, (frr.scan env w).2.trace = w.trace ++ evs ∧ ∀ e ∈ evs, ∃ n, e = Event.scanLine n := by
  unfold fileRegexReplacer.scan
  split_ifs
  · exact ⟨[], by simp, by simp⟩
  · split
    · exact scanLoop_trace_report env _ _ _ 0 frr w h
    · exact ⟨[], by simp, by simp⟩

/-- The method `close` removes the temporary file. -/
theorem close_fs_temp (frr : fileRegexReplacer) (w : World) (name : Str)
    (h : frr.tempFile = some name) : (frr.close w).fs name = none := by
  unfold fileRegexReplacer.close
  cases frr.file <;> simp [h, World.put, World.log]

/-- Without a temporary file the method `close` keeps the file system. -/
theorem close_fs_none (frr : fileRegexReplacer) (w : World) (h : frr.tempFile = none) :
    (frr.close w).fs = w.fs := by
  unfold fileRegexReplacer.close
  cases frr.file <;> simp [h, World.log]

/-- The constructor either creates no temporary file and keeps the file system, or holds
the temporary file under the name of the environment. -/
theorem newFileRegexReplacer_temp (env : Env) (w : World) (path pattern repl : Str) :
    ((newFileRegexReplacer env w path pattern repl).1.tempFile = none ∧
      (newFileRegexReplacer env w path pattern repl).2.fs = w.fs) ∨
    (newFileRegexReplacer env w path pattern repl).1.tempFile = some env.tempName := by
  unfold newFileRegexReplacer
  cases (if env.openFails = true then none else w.fs path) with
  | none => simp [World.log]
  | some f =>
    by_cases hr : 0 < repl.length
    · by_cases ht : (env.createTempFails = true ∨ (w.fs env.tempName).isSome = true)
      · simp only [fileRegexReplacer.expectReplace, hr, decide_True, if_true, ht]
        simp [World.log]
      · simp only [fileRegexReplacer.expectReplace, hr, decide_True, if_true, ht, if_false]
        cases env.compile pattern <;> simp
    · simp only [fileRegexReplacer.expectReplace, hr, decide_False, Bool.false_eq_true, if_false]
      cases env.compile pattern <;> simp [World.log]

/-- A constructor that records no error has compiled the pattern, set the scanner and,
when a replacement is expected, created the temporary file. -/
theorem newFileRegexReplacer_ready (env : Env) (w : World) (path pattern repl : Str)
    (h : (newFileRegexReplacer env w path pattern repl).1.err = none) :
    (newFileRegexReplacer env w path pattern repl).1.regex.isSome = true ∧
    (newFileRegexReplacer env w path pattern repl).1.scanner.isSome = true ∧
    (0 < repl.length →
      (newFileRegexReplacer env w path pattern repl).1.tempFile = some env.tempName) := by
  unfold newFileRegexReplacer at h ⊢
  cases hopen : (if env.openFails = true then none else w.fs path) with
  | none => simp [hopen] at h
  | some f =>
    simp only [hopen] at h ⊢
    by_cases hr : 0 < repl.length
    · by_cases ht : (env.createTempFails = true ∨ (w.fs env.tempName).isSome = true)
      · simp [fileRegexReplacer.expectReplace, hr, ht] at h
      · simp only [fileRegexReplacer.expectReplace, hr, decide_True, if_true, ht, if_false] at h ⊢
        cases hc : env.compile pattern with
        | none => simp [hc] at h
        | some re => simp [hr]
    · simp only [fileRegexReplacer.expectReplace, hr, decide_False, Bool.false_eq_true,
        if_false] at h ⊢
      cases hc : env.compile pattern with
      | none => simp [hc] at h
      | some re => simp [hr]

/-- The constructor without a replacement: no temporary file, one call. -/
theorem newFileRegexReplacer_report (env : Env) (w : World) (path pattern : Str) :
    (newFileRegexReplacer env w path pattern []).1.tempFile = none ∧
    (newFileRegexReplacer env w path pattern []).1.repl = [] ∧
    (newFileRegexReplacer env w path pattern []).2 = w.log (Event.openFile path) ∧
    ((newFileRegexReplacer env w path pattern []).1.file = none ∨
      (newFileRegexReplacer env w path pattern []).1.file = some path) := by
  unfold newFileRegexReplacer
  cases (if env.openFails = true then none else w.fs path) with
  | none => simp
  | some f =>
    simp only [fileRegexReplacer.expectReplace, List.length_nil, Nat.lt_irrefl, decide_False,
      Bool.false_eq_true, if_false]
    cases env.compile pattern <;> simp

/-- A call without a replacement keeps the file system and only opens the file, reads
lines and closes the file. -/
theorem RegexReplaceFile_report_frame (env : Env) (w : World) (path pattern : Str) :
    (RegexReplaceFile env w path pattern []).world.fs = w.fs ∧
    ∃ evs, (RegexReplaceFile env w path pattern []).world.trace = w.trace ++ evs ∧
      ∀ e ∈ evs, e = Event.openFile path ∨ (∃ n, e = Event.scanLine n) ∨
        e = Event.closeFile path := by
  obtain ⟨h0t, h0r, h0w, h0f⟩ := newFileRegexReplacer_report env w path pattern
  simp only [RegexReplaceFile]
  generalize newFileRegexReplacer env w path pattern [] = s0 at *
  obtain ⟨h1fs, h1t, h1f, _, h1r⟩ := scan_frame env s0.1 s0.2
  obtain ⟨evs, h1tr, h1ev⟩ := scan_trace_report env s0.1 s0.2 h0r
  generalize s0.1.scan env s0.2 = s1 at *
  rw [replace_of_empty env s1.1 s1.2 (by rw [h1r, h0r])]
  have hfs : s1.2.fs = w.fs := by rw [h1fs, h0w]; rfl
  have htr : s1.2.trace = w.trace ++ (Event.openFile path :: evs) := by
    rw [h1tr, h0w]
    simp [World.log]
  have ht : s1.1.tempFile = none := by rw [h1t, h0t]
  constructor
  · simp only []
    rw [close_fs_none s1.1 s1.2 ht, hfs]
  · simp only [fileRegexReplacer.close, ht]
    rcases h0f with hfile | hfile
    · rw [h1f, hfile]
      refine ⟨Event.openFile path :: evs, htr, ?_⟩
      intro e he
      rcases List.mem_cons.mp he with h | h
      · exact Or.inl h
      · exact Or.inr (Or.inl (h1ev e h))
    · rw [h1f, hfile]
      refine ⟨Event.openFile path :: (evs ++ [Event.closeFile path]), ?_, ?_⟩
      · simp [World.log, htr]
      · intro e he
        rcases List.mem_cons.mp he with h | h
        · exact Or.inl h
        · rcases List.mem_append.mp h with h | h
          · exact Or.inr (Or.inl (h1ev e h))
          · exact Or.inr (Or.inr (by simpa using h))

/-! ## Lemmas on lines and records -/

theorem foundMatches_of_no_match (re : Regexp) (line : Str) (h : re.exec line 0 = none) :
    foundMatches re line = [] := by
  simp [foundMatches, foundLoop, h]

theorem lineOutput_of_no_match {u : Unicode} (re : Regexp) (repl line : Str) (h : re.exec line 0 = none) :
    lineOutput u re repl line = line := by
  simp [lineOutput, foundMatches_of_no_match re line h, spliceFrom]

theorem lineRecords_of_no_match {u : Unicode} (re : Regexp) (fp repl : Str) (k : Nat) (line : Str)
    (h : re.exec line 0 = none) : lineRecords u re fp repl k line = [] := by
  simp [lineRecords, foundMatches_of_no_match re line h]

theorem fileRecords_of_no_match {u : Unicode} (re : Regexp) (fp repl : Str) :
    ∀ (lines : List Str) (k : Nat), (∀ l ∈ lines, re.exec l 0 = none) →
      fileRecords u re fp repl k lines = [] := by
  intro lines
  induction lines with
  | nil => intro k _; rfl
  | cons l rest ih =>
    intro k h
    simp only [fileRecords]
    rw [lineRecords_of_no_match re fp repl k l (h l (List.mem_cons_self _ _)),
      ih (k + 1) (fun x hx => h x (List.mem_cons_of_mem _ hx))]
    rfl

theorem fileOutput_of_no_match {u : Unicode} (re : Regexp) (repl : Str) (lines : List Str)
    (h : ∀ l ∈ lines, re.exec l 0 = none) :
    fileOutput u re repl lines = (lines.map (fun l => l ++ ['\n'])).flatten := by
  unfold fileOutput
  congr 1
  apply List.map_congr_left
  intro l hl
  rw [lineOutput_of_no_match re repl l (h l hl)]

theorem matchRecord_pos {u : Unicode} (re : Regexp) (fp repl : Str) (k : Nat) (m : Str)
    (h : 0 < (FindStringSubmatch re m).length) :
    matchRecord u re fp repl k m =
      some { FilePath := fp, LineNumber := k, Matches := FindStringSubmatch re m,
             Replace := decide (0 < repl.length),
             Replacement := resolvedReplacement u re repl m } := by
  simp only [matchRecord, h, if_true]

theorem matchRecord_neg {u : Unicode} (re : Regexp) (fp repl : Str) (k : Nat) (m : Str)
    (h : ¬ 0 < (FindStringSubmatch re m).length) : matchRecord u re fp repl k m = none := by
  simp only [matchRecord, h, if_false]

/-- The records of a line number the line, one for each recorded match. -/
theorem lineRecords_lineNumbers {u : Unicode} (re : Regexp) (fp repl : Str) (k : Nat) (line : Str) :
    (lineRecords u re fp repl k line).map MatchedLine.LineNumber =
      List.replicate (recordedMatches re line).length k := by
  unfold lineRecords recordedMatches
  induction foundMatches re line with
  | nil => rfl
  | cons a rest ih =>
    by_cases h : 0 < (FindStringSubmatch re (matchText line a)).length
    · rw [List.filterMap_cons_some (f := fun a => matchRecord u re fp repl k (matchText line a))
          (matchRecord_pos re fp repl k _ h),
        List.filter_cons_of_pos (by simpa using h), List.map_cons, ih]
      rfl
    · rw [List.filterMap_cons_none (f := fun a => matchRecord u re fp repl k (matchText line a))
          (matchRecord_neg re fp repl k _ h),
        List.filter_cons_of_neg (by simpa using h), ih]

theorem fileRecords_lineNumbers {u : Unicode} (re : Regexp) (fp repl : Str) :
    ∀ (lines : List Str) (k : Nat),
      (fileRecords u re fp repl k lines).map MatchedLine.LineNumber =
        repeatIndices k (lines.map (fun l => (recordedMatches re l).length)) := by
  intro lines
  induction lines with
  | nil => intro k; rfl
  | cons l rest ih =>
    intro k
    simp [fileRecords, repeatIndices, lineRecords_lineNumbers, ih]

theorem repeatIndices_length : ∀ (cs : List Nat) (k : Nat),
    (repeatIndices k cs).length = cs.sum := by
  intro cs
  induction cs with
  | nil => intro k; rfl
  | cons c rest ih => intro k; simp [repeatIndices, ih]

theorem repeatIndices_ge : ∀ (cs : List Nat) (k : Nat), ∀ x ∈ repeatIndices k cs, k ≤ x := by
  intro cs
  induction cs with
  | nil => intro k x hx; simp [repeatIndices] at hx
  | cons c rest ih =>
    intro k x hx
    simp only [repeatIndices, List.mem_append] at hx
    rcases hx with h | h
    · have := (List.mem_replicate.mp h).2
      omega
    · have := ih (k + 1) x h
      omega

theorem repeatIndices_sorted : ∀ (cs : List Nat) (k : Nat),
    (repeatIndices k cs).Pairwise (fun a b => a ≤ b) := by
  intro cs
  induction cs with
  | nil => intro k; simp [repeatIndices]
  | cons c rest ih =>
    intro k
    simp only [repeatIndices]
    rw [List.pairwise_append]
    refine ⟨?_, ih (k + 1), ?_⟩
    · rw [List.pairwise_replicate]
      exact Or.inr (le_refl k)
    · intro a ha b hb
      have h1 := (List.mem_replicate.mp ha).2
      have h2 := repeatIndices_ge rest (k + 1) b hb
      omega

/-- Where every match of a line is matched again when taken alone, the recorded matches
are the matches. -/
theorem recordedMatches_eq (re : Regexp) (line : Str)
    (h : ∀ a ∈ foundMatches re line, 0 < (FindStringSubmatch re (matchText line a)).length) :
    recordedMatches re line = foundMatches re line := by
  unfold recordedMatches
  apply List.filter_eq_self.mpr
  intro a ha
  simpa using h a ha

/-- Every record of a line carries the number of the line. -/
theorem lineRecords_lineNumber_mem {u : Unicode} (re : Regexp) (fp repl : Str) (k : Nat)
    (line : Str) : ∀ r ∈ lineRecords u re fp repl k line, r.LineNumber = k := by
  intro r hr
  have h1 : r.LineNumber ∈ (lineRecords u re fp repl k line).map MatchedLine.LineNumber :=
    List.mem_map_of_mem _ hr
  rw [lineRecords_lineNumbers] at h1
  exact List.eq_of_mem_replicate h1

/-- The records of the lines from number `k` on carry a number from `k` on. -/
theorem fileRecords_lineNumber_ge {u : Unicode} (re : Regexp) (fp repl : Str) (k : Nat)
    (lines : List Str) : ∀ r ∈ fileRecords u re fp repl k lines, k ≤ r.LineNumber := by
  intro r hr
  have h1 : r.LineNumber ∈ (fileRecords u re fp repl k lines).map MatchedLine.LineNumber :=
    List.mem_map_of_mem _ hr
  rw [fileRecords_lineNumbers] at h1
  exact repeatIndices_ge _ k _ h1

/-- Among the records of a file, those that carry the number of a line are the records
of that line. -/
theorem filter_fileRecords {u : Unicode} (re : Regexp) (fp repl : Str) :
    ∀ (lines : List Str) (j : Nat) (pre : List MatchedLine),
      (∀ r ∈ pre, r.LineNumber < j) → ∀ (i : Nat) (l : Str), lines[i]? = some l →
      (pre ++ fileRecords u re fp repl j lines).filter (fun r => decide (r.LineNumber = j + i)) =
        lineRecords u re fp repl (j + i) l := by
  intro lines
  induction lines with
  | nil =>
    intro j pre _ i l h
    simp at h
  | cons x rest ih =>
    intro j pre hpre i l h
    cases i with
    | zero =>
      simp only [List.getElem?_cons_zero, Option.some.injEq] at h
      subst h
      simp only [fileRecords, List.filter_append, Nat.add_zero]
      have h1 : pre.filter (fun r => decide (r.LineNumber = j)) = [] := by
        apply List.filter_eq_nil_iff.mpr
        intro r hr
        have := hpre r hr
        simp only [decide_eq_true_eq]
        omega
      have h2 : (lineRecords u re fp repl j x).filter (fun r => decide (r.LineNumber = j)) =
          lineRecords u re fp repl j x := by
        apply List.filter_eq_self.mpr
        intro r hr
        simp only [decide_eq_true_eq]
        exact lineRecords_lineNumber_mem re fp repl j x r hr
      have h3 : (fileRecords u re fp repl (j + 1) rest).filter
          (fun r => decide (r.LineNumber = j)) = [] := by
        apply List.filter_eq_nil_iff.mpr
        intro r hr
        have := fileRecords_lineNumber_ge re fp repl (j + 1) rest r hr
        simp only [decide_eq_true_eq]
        omega
      rw [h1, h2, h3]
      simp
    | succ i =>
      simp only [List.getElem?_cons_succ] at h
      have hpre2 : ∀ r ∈ pre ++ lineRecords u re fp repl j x, r.LineNumber < j + 1 := by
        intro r hr
        rcases List.mem_append.mp hr with h1 | h1
        · have := hpre r h1
          omega
        · have := lineRecords_lineNumber_mem re fp repl j x r h1
          omega
      have h4 := ih (j + 1) (pre ++ lineRecords u re fp repl j x) hpre2 i l h
      have e : j + 1 + i = j + (i + 1) := by omega
      rw [e] at h4
      simp only [fileRecords]
      rw [← List.append_assoc]
      exact h4

/-- Replacing the matches of a line from the records of the line gives the line the
program writes. -/
theorem spliceRecords_lineRecords {u : Unicode} (re : Regexp) (fp repl : Str) (k : Nat)
    (line : Str) : ∀ (ms : List MatchLoc) (last : Nat),
      spliceRecords re line last ms
          (ms.filterMap (fun a => matchRecord u re fp repl k (matchText line a))) =
        spliceFrom line (fun a => matchOutput u re repl (matchText line a)) last ms := by
  intro ms
  induction ms with
  | nil => intro last; rfl
  | cons a rest ih =>
    intro last
    by_cases h : 0 < (FindStringSubmatch re (matchText line a)).length
    · rw [List.filterMap_cons_some (f := fun a => matchRecord u re fp repl k (matchText line a))
        (matchRecord_pos re fp repl k _ h)]
      simp only [spliceRecords, h, if_true, spliceFrom, matchOutput, ih]
    · rw [List.filterMap_cons_none (f := fun a => matchRecord u re fp repl k (matchText line a))
        (matchRecord_neg re fp repl k _ h)]
      simp only [spliceRecords, h, if_false, spliceFrom, matchOutput, ih]

/-- The content built from the records of a file is the content the program writes. -/
theorem contentFromRecords_fileRecords {u : Unicode} (re : Regexp) (fp repl : Str) :
    ∀ (lines : List Str) (k : Nat) (pre : List MatchedLine), (∀ r ∈ pre, r.LineNumber < k) →
      contentFromRecords re k lines (pre ++ fileRecords u re fp repl k lines) =
        fileOutput u re repl lines := by
  intro lines
  induction lines with
  | nil => intro k pre _; rfl
  | cons l rest ih =>
    intro k pre hpre
    have hf := filter_fileRecords (u := u) re fp repl (l :: rest) k pre hpre 0 l (by simp)
    simp only [Nat.add_zero] at hf
    have hpre2 : ∀ r ∈ pre ++ lineRecords u re fp repl k l, r.LineNumber < k + 1 := by
      intro r hr
      rcases List.mem_append.mp hr with h1 | h1
      · have := hpre r h1
        omega
      · have := lineRecords_lineNumber_mem re fp repl k l r h1
        omega
    have hrest := ih (k + 1) (pre ++ lineRecords u re fp repl k l) hpre2
    simp only [contentFromRecords, hf]
    have e : pre ++ fileRecords u re fp repl k (l :: rest) =
        pre ++ lineRecords u re fp repl k l ++ fileRecords u re fp repl (k + 1) rest := by
      simp [fileRecords]
    rw [e, hrest]
    simp only [lineRecords, spliceRecords_lineRecords, fileOutput, lineOutput, List.map_cons,
      List.flatten_cons, List.append_assoc]

/-- A line without a match is kept, whatever the records. -/
theorem spliceRecords_of_no_match (re : Regexp) (line : Str) (rs : List MatchedLine)
    (h : re.exec line 0 = none) :
    spliceRecords re line 0 (foundMatches re line) rs = line := by
  simp [foundMatches_of_no_match re line h, spliceRecords]

/-- The line numbers and the submatches of the records do not depend on the template. -/
theorem fileRecords_projection {u : Unicode} (re : Regexp) (fp r1 r2 : Str) :
    ∀ (lines : List Str) (k : Nat),
      (fileRecords u re fp r1 k lines).map (fun m => (m.FilePath, m.LineNumber, m.Matches)) =
      (fileRecords u re fp r2 k lines).map (fun m => (m.FilePath, m.LineNumber, m.Matches)) := by
  intro lines
  induction lines with
  | nil => intro k; rfl
  | cons l rest ih =>
    intro k
    simp only [fileRecords, List.map_append, ih]
    congr 1
    unfold lineRecords
    induction foundMatches re l with
    | nil => rfl
    | cons a more ih2 =>
      by_cases h : 0 < (FindStringSubmatch re (matchText l a)).length
      · rw [List.filterMap_cons_some (f := fun a => matchRecord u re fp r1 k (matchText l a))
            (matchRecord_pos re fp r1 k _ h),
          List.filterMap_cons_some (f := fun a => matchRecord u re fp r2 k (matchText l a))
            (matchRecord_pos re fp r2 k _ h),
          List.map_cons, List.map_cons, ih2]
      · rw [List.filterMap_cons_none (f := fun a => matchRecord u re fp r1 k (matchText l a))
            (matchRecord_neg re fp r1 k _ h),
          List.filterMap_cons_none (f := fun a => matchRecord u re fp r2 k (matchText l a))
            (matchRecord_neg re fp r2 k _ h), ih2]

/-- A successful call: no error and the records of all lines, whatever the template. -/
theorem RegexReplaceFile_ok_result (env : Env) (w : World) (path pattern repl : Str)
    (re : Regexp) (f : File) (hnf : NoFailure env w path f) (hc : env.compile pattern = some re)
    (hre : re.Sound) :
    (RegexReplaceFile env w path pattern repl).err = none ∧
    (RegexReplaceFile env w path pattern repl).result =
      fileRecords env.unicode re path repl 0 (scanLines [] f.content).1 := by
  cases repl with
  | nil => exact RegexReplaceFile_report_ok env w path pattern re f hnf hc hre
  | cons c cs =>
    have h := RegexReplaceFile_replace_ok env w path pattern (c :: cs) re f hnf hc hre (by simp)
    exact ⟨h.1, h.2.1⟩

/-! ## Lemmas on the scanner -/

/-- The scanner on a line without newline, followed by a newline. -/
theorem scanLines_line (rest : Str) : ∀ (l cur : Str), '\n' ∉ l →
    scanLines cur (l ++ '\n' :: rest) =
      if maxScanTokenSize ≤ byteLen (cur ++ l) then ([], true)
      else (dropCR (cur ++ l) :: (scanLines [] rest).1, (scanLines [] rest).2) := by
  intro l
  induction l with
  | nil =>
    intro cur _
    simp [scanLines]
  | cons c l ih =>
    intro cur h
    have hc : ¬ c = '\n' := fun e => h (by simp [e])
    have hl : '\n' ∉ l := fun e => h (List.mem_cons_of_mem _ e)
    have h1 : scanLines cur (c :: l ++ '\n' :: rest) = scanLines (cur ++ [c]) (l ++ '\n' :: rest) := by
      simp [scanLines, hc]
    rw [h1, ih (cur ++ [c]) hl]
    simp

/-- A file in which every line ends in a newline, has no carriage return before it and
fits the buffer, is scanned into these lines. -/
theorem scanLines_flatten : ∀ (ls : List Str),
    (∀ l ∈ ls, '\n' ∉ l ∧ l.getLast? ≠ some '\r' ∧ byteLen l < maxScanTokenSize) →
    scanLines [] (ls.map (fun l => l ++ ['\n'])).flatten = (ls, false) := by
  intro ls
  induction ls with
  | nil => intro _; simp [scanLines]
  | cons l rest ih =>
    intro h
    obtain ⟨h1, h2, h3⟩ := h l (List.mem_cons_self _ _)
    have hrest := ih (fun x hx => h x (List.mem_cons_of_mem _ hx))
    have e : ((l :: rest).map (fun l => l ++ ['\n'])).flatten =
        l ++ '\n' :: (rest.map (fun l => l ++ ['\n'])).flatten := by simp
    rw [e, scanLines_line _ l [] h1, hrest]
    have h4 : ¬ maxScanTokenSize ≤ byteLen l := by omega
    simp [h4, dropCR, h2]

/-! ## Lemmas on the examples -/

/-- In the environment of the examples no I/O step fails on a file whose lines fit the
buffer of the scanner. -/
theorem sampleWorld_noFailure (content : Str) (h : (scanLines [] content).2 = false) :
    NoFailure sampleEnv (sampleWorld content) samplePath ⟨content, 0o644⟩ :=
  { opens := rfl
    present := by simp [sampleWorld]
    temp := rfl
    fresh := by
      have h : ¬ sampleEnv.tempName = samplePath := by decide
      simp [sampleWorld, h]
    reads := rfl
    short := h
    writes := fun _ => rfl
    flushes := rfl
    renames := rfl
    chmods := rfl }

/-- The resolution on a captured text that holds a dollar sign followed by a letter
outside ASCII: the name after the dollar sign is the letter, no group has that name, and
the resolved replacement of the line `price: $é` under the template `cost: $1` is
`cost: `. -/
theorem resolve_captured_letter :
    (RegexReplaceFile sampleEnv (sampleWorld "price: $é\n".toList) samplePath
      "price: (.*)$".toList "cost: $1".toList).result =
      [⟨samplePath, 0, ["price: $é".toList, "$é".toList], true, "cost: ".toList⟩] := by
  decide

/-- The resolved replacement of the specification on a captured text that holds a dollar
sign, and on the template `$10` with eleven submatches. -/
theorem specResolve_examples :
    specResolve "cost: $1".toList ["price: $5".toList, "$5".toList] = "cost: $5".toList ∧
    specResolve "$10".toList
      ["abcdefghij".toList, "a".toList, "b".toList, "c".toList, "d".toList, "e".toList,
       "f".toList, "g".toList, "h".toList, "i".toList, "j".toList] = "j".toList ∧
    specResolve "image: abc.com/$1".toList ["image: foo:latest".toList, "foo:latest".toList] =
      "image: abc.com/foo:latest".toList := by
  decide

/-! ## The claims -/

/-- C1 (amended): when no I/O step fails, for a valid pattern and a non-empty replacement
the call returns no error and the file then holds, for each scanned line `l` of number
`k` in order, the line `T(l)` followed by one newline, where `T(l)` is `l` with each
left-to-right non-overlapping match whose text the pattern matches again when taken
alone replaced by the `Replacement` of the record returned for it, and every other match
left as it is.  The records of line `k` are the returned records with `LineNumber` `k`,
one for each such match, in order.  A line without a match is emitted unchanged. -/
theorem C1_file_holds_transformed_lines (env : Env) (w : World) (path pattern repl : Str)
    (re : Regexp) (f : File) (hnf : NoFailure env w path f) (hc : env.compile pattern = some re)
    (hre : re.Sound) (hrepl : repl ≠ []) :
    (RegexReplaceFile env w path pattern repl).err = none ∧
    ((RegexReplaceFile env w path pattern repl).world.fs path).map File.content =
      some (contentFromRecords re 0 (scanLines [] f.content).1
        (RegexReplaceFile env w path pattern repl).result) ∧
    (∀ (k : Nat) (l : Str), (scanLines [] f.content).1[k]? = some l →
      ((RegexReplaceFile env w path pattern repl).result.filter
        (fun r => decide (r.LineNumber = k))).length = (recordedMatches re l).length) ∧
    (∀ (l : Str) (rs : List MatchedLine), re.exec l 0 = none →
      spliceRecords re l 0 (foundMatches re l) rs = l) := by
  have hlen : 0 < repl.length := List.length_pos.mpr hrepl
  obtain ⟨herr, hres, hfs, _⟩ :=
    RegexReplaceFile_replace_ok env w path pattern repl re f hnf hc hre hlen
  refine ⟨herr, ?_, ?_, ?_⟩
  · have h := contentFromRecords_fileRecords (u := env.unicode) re path repl
      (scanLines [] f.content).1 0 [] (by simp)
    rw [hfs, hres]
    simp only [List.nil_append] at h
    rw [h]
    rfl
  · intro k l hk
    have h := filter_fileRecords (u := env.unicode) re path repl (scanLines [] f.content).1 0 []
      (by simp) k l hk
    simp only [List.nil_append, Nat.zero_add] at h
    rw [hres, h]
    have h2 := congrArg List.length (lineRecords_lineNumbers (u := env.unicode) re path repl k l)
    simpa using h2
  · intro l rs hl
    exact spliceRecords_of_no_match re l rs hl

/-- C1, as stated, fails for the pattern `\Bb`, the replacement `X` and the file `ab`:
the `b` is a match of the line, but taken alone it is not matched, so the file keeps the
line `ab` where the claim gives `aX`. -/
theorem C1_counterexample :
    NoFailure sampleEnv (sampleWorld "ab\n".toList) samplePath ⟨"ab\n".toList, 0o644⟩ ∧
    sampleEnv.compile "\\Bb".toList = some innerPattern ∧
    (foundMatches innerPattern "ab".toList).map MatchLoc.whole = [⟨1, 2⟩] ∧
    FindStringSubmatch innerPattern "b".toList = [] ∧
    ((RegexReplaceFile sampleEnv (sampleWorld "ab\n".toList) samplePath "\\Bb".toList
        "X".toList).world.fs samplePath).map File.content = some "ab\n".toList ∧
    specFileOutput innerPattern "X".toList (scanLines [] "ab\n".toList).1 = "aX\n".toList ∧
    ((RegexReplaceFile sampleEnv (sampleWorld "ab\n".toList) samplePath "\\Bb".toList
        "X".toList).world.fs samplePath).map File.content ≠
      some (specFileOutput innerPattern "X".toList (scanLines [] "ab\n".toList).1) :=
  ⟨sampleWorld_noFailure _ (by decide), rfl, by decide, by decide, by decide, by decide,
    by decide⟩

/-- Witness of C1 (amended): the example of the specification, the file of three lines
whose second line holds an image. -/
theorem C1_file_holds_transformed_lines_witness :
    NoFailure sampleEnv (sampleWorld "name: x\n  image: foo:latest\nend\n".toList) samplePath
      ⟨"name: x\n  image: foo:latest\nend\n".toList, 0o644⟩ ∧
    sampleEnv.compile "image: (.*)$".toList = some imagePattern ∧
    imagePattern.Sound ∧ "image: abc.com/$1".toList ≠ [] ∧
    (RegexReplaceFile sampleEnv (sampleWorld "name: x\n  image: foo:latest\nend\n".toList)
      samplePath "image: (.*)$".toList "image: abc.com/$1".toList).err = none ∧
    ((RegexReplaceFile sampleEnv (sampleWorld "name: x\n  image: foo:latest\nend\n".toList)
      samplePath "image: (.*)$".toList "image: abc.com/$1".toList).world.fs samplePath).map
        File.content = some "name: x\n  image: abc.com/foo:latest\nend\n".toList :=
  ⟨sampleWorld_noFailure _ (by decide), rfl, Re.toRegexp_sound _ _, by decide,
    (C1_file_holds_transformed_lines sampleEnv _ samplePath "image: (.*)$".toList
      "image: abc.com/$1".toList imagePattern _ (sampleWorld_noFailure _ (by decide)) rfl
      (Re.toRegexp_sound _ _) (by decide)).1,
    (C1_file_holds_transformed_lines sampleEnv _ samplePath "image: (.*)$".toList
      "image: abc.com/$1".toList imagePattern _ (sampleWorld_noFailure _ (by decide)) rfl
      (Re.toRegexp_sound _ _) (by decide)).2.1.trans (by decide)⟩

/-- C2: the code at a captured text that holds a dollar sign.  On the example of the
claim (`image: foo:latest`) the resolved replacement is `image: abc.com/foo:latest`; on
the line `price: $5` with the pattern `price: (.*)$` and the template `cost: $1` the
captured text is `$5`, and the resolved replacement is `cost: ` and not `cost: $5`: the
captured text is read as a template of `ReplaceAllString`, in which `$5` names a group
that does not exist. -/
theorem C2_captured_dollar_is_expanded :
    (RegexReplaceFile sampleEnv (sampleWorld "image: foo:latest\n".toList) samplePath
      "image: (.*)$".toList "image: abc.com/$1".toList).result =
      [⟨samplePath, 0, ["image: foo:latest".toList, "foo:latest".toList], true,
        "image: abc.com/foo:latest".toList⟩] ∧
    (RegexReplaceFile sampleEnv (sampleWorld "price: $5\n".toList) samplePath
      "price: (.*)$".toList "cost: $1".toList).result =
      [⟨samplePath, 0, ["price: $5".toList, "$5".toList], true, "cost: ".toList⟩] ∧
    ((RegexReplaceFile sampleEnv (sampleWorld "price: $5\n".toList) samplePath
      "price: (.*)$".toList "cost: $1".toList).world.fs samplePath).map File.content =
      some "cost: \n".toList := by
  decide

/-- C3: the code at the template `$10` and a match with eleven submatches (the pattern
`(a)(b)(c)(d)(e)(f)(g)(h)(i)(j)` on the line `abcdefghij`): the pass for `$1` replaces
the first two characters of `$10`, and the resolved replacement is `a0`, not the text
`j` of submatch 10. -/
theorem C3_pass_for_1_alters_token_10 :
    (RegexReplaceFile sampleEnv (sampleWorld "abcdefghij\n".toList) samplePath
      "(a)(b)(c)(d)(e)(f)(g)(h)(i)(j)".toList "$10".toList).result =
      [⟨samplePath, 0,
        ["abcdefghij".toList, "a".toList, "b".toList, "c".toList, "d".toList, "e".toList,
         "f".toList, "g".toList, "h".toList, "i".toList, "j".toList],
        true, "a0".toList⟩] ∧
    ReplaceAllString sampleEnv.unicode (placeholderRegexp 1) "$10".toList "a".toList =
      "a0".toList := by
  decide

/-- C4 (amended): when no I/O step fails and no scanned line matches the valid pattern,
the call returns no record and no error; with the empty replacement the file is the one
before the call; with a non-empty replacement the file holds each scanned line followed
by one newline, with mode `0666`, so that its bytes are those before the call when every
line of the file ended in a newline with no carriage return before it. -/
theorem C4_no_match_rewrites_lines (env : Env) (w : World) (path pattern repl : Str)
    (re : Regexp) (f : File) (hnf : NoFailure env w path f) (hc : env.compile pattern = some re)
    (hre : re.Sound) (hno : ∀ l ∈ (scanLines [] f.content).1, re.exec l 0 = none) :
    (RegexReplaceFile env w path pattern repl).result = [] ∧
    (RegexReplaceFile env w path pattern repl).err = none ∧
    (repl = [] → (RegexReplaceFile env w path pattern repl).world.fs path = some f) ∧
    (repl ≠ [] → (RegexReplaceFile env w path pattern repl).world.fs path =
      some ⟨((scanLines [] f.content).1.map (fun l => l ++ ['\n'])).flatten, 0o666⟩) ∧
    (∀ ls : List Str, f.content = (ls.map (fun l => l ++ ['\n'])).flatten →
      (∀ l ∈ ls, '\n' ∉ l ∧ l.getLast? ≠ some '\r' ∧ byteLen l < maxScanTokenSize) →
      ((RegexReplaceFile env w path pattern repl).world.fs path).map File.content =
        some f.content) := by
  obtain ⟨herr, hres⟩ := RegexReplaceFile_ok_result env w path pattern repl re f hnf hc hre
  have hrepl_fs : repl ≠ [] → (RegexReplaceFile env w path pattern repl).world.fs path =
      some ⟨((scanLines [] f.content).1.map (fun l => l ++ ['\n'])).flatten, 0o666⟩ := by
    intro hr
    have h := (RegexReplaceFile_replace_ok env w path pattern repl re f hnf hc hre
      (List.length_pos.mpr hr)).2.2.1
    rw [h, fileOutput_of_no_match re repl _ hno]
  have hempty_fs : repl = [] → (RegexReplaceFile env w path pattern repl).world.fs path = some f := by
    intro hr
    subst hr
    rw [(RegexReplaceFile_report_frame env w path pattern).1]
    exact hnf.present
  refine ⟨?_, herr, hempty_fs, hrepl_fs, ?_⟩
  · rw [hres]
    exact fileRecords_of_no_match re path repl _ 0 hno
  · intro ls hcontent hls
    by_cases hr : repl = []
    · rw [hempty_fs hr]
      rfl
    · rw [hrepl_fs hr, hcontent, scanLines_flatten ls hls]
      rfl

/-- C4, as stated, fails for a file whose last line has no newline and for a file whose
lines end in a carriage return and a newline: with the pattern `a` and the replacement
`y` no line of the file `xyz` matches, the call returns no record and no error, and the
file then holds `xyz` and a newline; the file of the line `xyz` ended by a carriage
return and a newline then holds `xyz` and a newline. -/
theorem C4_counterexample :
    NoFailure sampleEnv (sampleWorld "xyz".toList) samplePath ⟨"xyz".toList, 0o644⟩ ∧
    sampleEnv.compile "a".toList = some letterPattern ∧
    (∀ l ∈ (scanLines [] "xyz".toList).1, letterPattern.exec l 0 = none) ∧
    (RegexReplaceFile sampleEnv (sampleWorld "xyz".toList) samplePath "a".toList
      "y".toList).result = [] ∧
    (RegexReplaceFile sampleEnv (sampleWorld "xyz".toList) samplePath "a".toList
      "y".toList).err = none ∧
    ((RegexReplaceFile sampleEnv (sampleWorld "xyz".toList) samplePath "a".toList
      "y".toList).world.fs samplePath).map File.content = some "xyz\n".toList ∧
    ((RegexReplaceFile sampleEnv (sampleWorld "xyz".toList) samplePath "a".toList
      "y".toList).world.fs samplePath).map File.content ≠
      ((sampleWorld "xyz".toList).fs samplePath).map File.content ∧
    (∀ l ∈ (scanLines [] "xyz\r\n".toList).1, letterPattern.exec l 0 = none) ∧
    ((RegexReplaceFile sampleEnv (sampleWorld "xyz\r\n".toList) samplePath "a".toList
      "y".toList).world.fs samplePath).map File.content = some "xyz\n".toList :=
  ⟨sampleWorld_noFailure _ (by decide), rfl, by decide, by decide, by decide, by decide,
    by decide, by decide, by decide⟩

/-- Witness of C4 (amended): a file of two terminated lines without a match keeps its
bytes under the replacement `y`. -/
theorem C4_no_match_rewrites_lines_witness :
    NoFailure sampleEnv (sampleWorld "xyz\nuvw\n".toList) samplePath
      ⟨"xyz\nuvw\n".toList, 0o644⟩ ∧
    sampleEnv.compile "a".toList = some letterPattern ∧ letterPattern.Sound ∧
    (∀ l ∈ (scanLines [] "xyz\nuvw\n".toList).1, letterPattern.exec l 0 = none) ∧
    (RegexReplaceFile sampleEnv (sampleWorld "xyz\nuvw\n".toList) samplePath "a".toList
      "y".toList).result = [] ∧
    (RegexReplaceFile sampleEnv (sampleWorld "xyz\nuvw\n".toList) samplePath "a".toList
      "y".toList).err = none ∧
    ((RegexReplaceFile sampleEnv (sampleWorld "xyz\nuvw\n".toList) samplePath "a".toList
      "y".toList).world.fs samplePath).map File.content = some "xyz\nuvw\n".toList :=
  ⟨sampleWorld_noFailure _ (by decide), rfl, Re.toRegexp_sound _ _, by decide,
    (C4_no_match_rewrites_lines sampleEnv _ samplePath "a".toList "y".toList letterPattern _
      (sampleWorld_noFailure _ (by decide)) rfl (Re.toRegexp_sound _ _) (by decide)).1,
    (C4_no_match_rewrites_lines sampleEnv _ samplePath "a".toList "y".toList letterPattern _
      (sampleWorld_noFailure _ (by decide)) rfl (Re.toRegexp_sound _ _) (by decide)).2.1,
    (C4_no_match_rewrites_lines sampleEnv _ samplePath "a".toList "y".toList letterPattern _
      (sampleWorld_noFailure _ (by decide)) rfl (Re.toRegexp_sound _ _) (by decide)).2.2.2.2
      ["xyz".toList, "uvw".toList] (by decide) (by decide)⟩

/-- C5: with the empty replacement the call never modifies the file system (so the
content and the mode at the path are those before the call), and the only calls it
makes are opening the file, reading lines and closing the file: no temporary file is
created, nothing is written, renamed or chmod-ed, however many lines match. -/
theorem C5_empty_replacement_never_modifies (env : Env) (w : World) (path pattern : Str) :
    (RegexReplaceFile env w path pattern []).world.fs = w.fs ∧
    ∃ evs, (RegexReplaceFile env w path pattern []).world.trace = w.trace ++ evs ∧
      ∀ e ∈ evs, e = Event.openFile path ∨ (∃ n, e = Event.scanLine n) ∨
        e = Event.closeFile path :=
  RegexReplaceFile_report_frame env w path pattern

/-- C6: when no I/O step fails, the call with the empty replacement and the call with a
replacement `r` on the same file return sequences of the same length with, position by
position, the same file path, line number and submatches. -/
theorem C6_report_only_returns_same_matches (env : Env) (w : World) (path pattern r : Str)
    (re : Regexp) (f : File) (hnf : NoFailure env w path f) (hc : env.compile pattern = some re)
    (hre : re.Sound) :
    (RegexReplaceFile env w path pattern []).result.length =
      (RegexReplaceFile env w path pattern r).result.length ∧
    (RegexReplaceFile env w path pattern []).result.map
        (fun m => (m.FilePath, m.LineNumber, m.Matches)) =
      (RegexReplaceFile env w path pattern r).result.map
        (fun m => (m.FilePath, m.LineNumber, m.Matches)) := by
  have h1 := (RegexReplaceFile_ok_result env w path pattern [] re f hnf hc hre).2
  have h2 := (RegexReplaceFile_ok_result env w path pattern r re f hnf hc hre).2
  have h3 := fileRecords_projection (u := env.unicode) re path [] r (scanLines [] f.content).1 0
  rw [← h1, ← h2] at h3
  refine ⟨?_, h3⟩
  have h4 := congrArg List.length h3
  simpa using h4

/-- Witness of C6: the file of three lines with one image line, reported and replaced. -/
theorem C6_report_only_returns_same_matches_witness :
    NoFailure sampleEnv (sampleWorld "name: x\n  image: foo:latest\nend\n".toList) samplePath
      ⟨"name: x\n  image: foo:latest\nend\n".toList, 0o644⟩ ∧
    sampleEnv.compile "image: (.*)$".toList = some imagePattern ∧ imagePattern.Sound ∧
    (RegexReplaceFile sampleEnv (sampleWorld "name: x\n  image: foo:latest\nend\n".toList)
      samplePath "image: (.*)$".toList []).result.map
        (fun m => (m.FilePath, m.LineNumber, m.Matches)) =
      (RegexReplaceFile sampleEnv (sampleWorld "name: x\n  image: foo:latest\nend\n".toList)
        samplePath "image: (.*)$".toList "image: abc.com/$1".toList).result.map
          (fun m => (m.FilePath, m.LineNumber, m.Matches)) :=
  ⟨sampleWorld_noFailure _ (by decide), rfl, Re.toRegexp_sound _ _,
    (C6_report_only_returns_same_matches sampleEnv _ samplePath "image: (.*)$".toList
      "image: abc.com/$1".toList imagePattern _ (sampleWorld_noFailure _ (by decide)) rfl
      (Re.toRegexp_sound _ _)).2⟩

/-- C7 (amended): when no I/O step fails, the returned sequence holds one record for each
match, and not one for each matching line: its length is the number, summed over the
scanned lines, of the left-to-right non-overlapping matches of the line whose text the
pattern matches again when taken alone. -/
theorem C7_one_record_per_match (env : Env) (w : World) (path pattern repl : Str)
    (re : Regexp) (f : File) (hnf : NoFailure env w path f) (hc : env.compile pattern = some re)
    (hre : re.Sound) :
    (RegexReplaceFile env w path pattern repl).result.length =
      ((scanLines [] f.content).1.map (fun l => (recordedMatches re l).length)).sum := by
  have h := (RegexReplaceFile_ok_result env w path pattern repl re f hnf hc hre).2
  have h2 := congrArg List.length
    (fileRecords_lineNumbers (u := env.unicode) re path repl (scanLines [] f.content).1 0)
  rw [List.length_map, repeatIndices_length] at h2
  rw [h, h2]

/-- C7, as stated, fails for a line with two matches: with the pattern `a` the file `aa`
has one matching line and the call returns two records. -/
theorem C7_counterexample :
    NoFailure sampleEnv (sampleWorld "aa\n".toList) samplePath ⟨"aa\n".toList, 0o644⟩ ∧
    sampleEnv.compile "a".toList = some letterPattern ∧
    matchingLines letterPattern (scanLines [] "aa\n".toList).1 = 1 ∧
    (RegexReplaceFile sampleEnv (sampleWorld "aa\n".toList) samplePath "a".toList
      []).result.length = 2 ∧
    (RegexReplaceFile sampleEnv (sampleWorld "aa\n".toList) samplePath "a".toList
      []).result.length ≠ matchingLines letterPattern (scanLines [] "aa\n".toList).1 :=
  ⟨sampleWorld_noFailure _ (by decide), rfl, by decide, by decide, by decide⟩

/-- Witness of C7 (amended): the file `aa` and `ba` with the pattern `a` gives three
records. -/
theorem C7_one_record_per_match_witness :
    NoFailure sampleEnv (sampleWorld "aa\nba\n".toList) samplePath ⟨"aa\nba\n".toList, 0o644⟩ ∧
    sampleEnv.compile "a".toList = some letterPattern ∧ letterPattern.Sound ∧
    (RegexReplaceFile sampleEnv (sampleWorld "aa\nba\n".toList) samplePath "a".toList
      "x".toList).result.length = 3 :=
  ⟨sampleWorld_noFailure _ (by decide), rfl, Re.toRegexp_sound _ _,
    (C7_one_record_per_match sampleEnv _ samplePath "a".toList "x".toList letterPattern _
      (sampleWorld_noFailure _ (by decide)) rfl (Re.toRegexp_sound _ _)).trans (by decide)⟩

/-- C8 (amended): when no I/O step fails, the line numbers of the returned records are
non-decreasing and are, for `k = 0, 1, ...` in order, the zero-based index `k` of the
line repeated once for each match of line `k` whose text the pattern matches again when
taken alone; where every match is matched again when taken alone, this is the index `k`
repeated once per match found in line `k`. -/
theorem C8_line_numbers_in_order (env : Env) (w : World) (path pattern repl : Str)
    (re : Regexp) (f : File) (hnf : NoFailure env w path f) (hc : env.compile pattern = some re)
    (hre : re.Sound) :
    (RegexReplaceFile env w path pattern repl).result.map MatchedLine.LineNumber =
      repeatIndices 0 ((scanLines [] f.content).1.map (fun l => (recordedMatches re l).length)) ∧
    ((RegexReplaceFile env w path pattern repl).result.map MatchedLine.LineNumber).Pairwise
      (fun a b => a ≤ b) ∧
    ((∀ l ∈ (scanLines [] f.content).1, ∀ a ∈ foundMatches re l,
        0 < (FindStringSubmatch re (matchText l a)).length) →
      (RegexReplaceFile env w path pattern repl).result.map MatchedLine.LineNumber =
        repeatIndices 0 ((scanLines [] f.content).1.map (fun l => (foundMatches re l).length))) := by
  have h := (RegexReplaceFile_ok_result env w path pattern repl re f hnf hc hre).2
  have h2 := fileRecords_lineNumbers (u := env.unicode) re path repl (scanLines [] f.content).1 0
  rw [← h] at h2
  refine ⟨h2, ?_, ?_⟩
  · rw [h2]
    exact repeatIndices_sorted _ 0
  · intro hall
    rw [h2]
    congr 1
    apply List.map_congr_left
    intro l hl
    rw [recordedMatches_eq re l (hall l hl)]

/-- C8, as stated, fails for the pattern `\Bb` and the file `ab`: line 0 holds one match,
yet no record is returned, the `b` taken alone not being matched. -/
theorem C8_counterexample :
    NoFailure sampleEnv (sampleWorld "ab\n".toList) samplePath ⟨"ab\n".toList, 0o644⟩ ∧
    sampleEnv.compile "\\Bb".toList = some innerPattern ∧
    repeatIndices 0 ((scanLines [] "ab\n".toList).1.map
      (fun l => (foundMatches innerPattern l).length)) = [0] ∧
    (RegexReplaceFile sampleEnv (sampleWorld "ab\n".toList) samplePath "\\Bb".toList
      []).result.map MatchedLine.LineNumber = [] ∧
    (RegexReplaceFile sampleEnv (sampleWorld "ab\n".toList) samplePath "\\Bb".toList
      []).result.map MatchedLine.LineNumber ≠
      repeatIndices 0 ((scanLines [] "ab\n".toList).1.map
        (fun l => (foundMatches innerPattern l).length)) :=
  ⟨sampleWorld_noFailure _ (by decide), rfl, by decide, by decide, by decide⟩

/-- Witness of C8 (amended): the file `aa`, `x`, `ba` with the pattern `a`. -/
theorem C8_line_numbers_in_order_witness :
    NoFailure sampleEnv (sampleWorld "aa\nx\nba\n".toList) samplePath
      ⟨"aa\nx\nba\n".toList, 0o644⟩ ∧
    sampleEnv.compile "a".toList = some letterPattern ∧ letterPattern.Sound ∧
    (RegexReplaceFile sampleEnv (sampleWorld "aa\nx\nba\n".toList) samplePath "a".toList
      "x".toList).result.map MatchedLine.LineNumber = [0, 0, 2] :=
  ⟨sampleWorld_noFailure _ (by decide), rfl, Re.toRegexp_sound _ _,
    (C8_line_numbers_in_order sampleEnv _ samplePath "a".toList "x".toList letterPattern _
      (sampleWorld_noFailure _ (by decide)) rfl (Re.toRegexp_sound _ _)).1.trans (by decide)⟩

/-- C9: for a readable file and a pattern that does not compile, whatever the
replacement, the call returns an error and no record, the file system after the call
is the one before it (so the bytes at the path are unchanged), and the only calls made
are opening and closing the file and creating, closing and removing the temporary file:
no line is scanned, nothing is flushed, renamed or chmod-ed. -/
theorem C9_invalid_pattern_rejected (env : Env) (w : World) (path pattern repl : Str) (f : File)
    (hopen : env.openFails = false) (hf : w.fs path = some f)
    (hc : env.compile pattern = none) :
    (RegexReplaceFile env w path pattern repl).err.isSome = true ∧
    (RegexReplaceFile env w path pattern repl).result = [] ∧
    (RegexReplaceFile env w path pattern repl).world.fs = w.fs ∧
    ∃ evs, (RegexReplaceFile env w path pattern repl).world.trace = w.trace ++ evs ∧
      ∀ e ∈ evs, e = Event.openFile path ∨ e = Event.createTemp env.tempName ∨
        e = Event.closeFile path ∨ e = Event.closeFile env.tempName ∨
        e = Event.remove env.tempName := by
  by_cases hr : 0 < repl.length
  · by_cases ht : (env.createTempFails = true ∨ (w.fs env.tempName).isSome = true)
    · have h0 : newFileRegexReplacer env w path pattern repl =
          ({ filePath := path, regex := none, repl := repl, file := some path, tempFile := none,
             scanner := some f.content, writer := [], err := some GoError.createTempFailed,
             result := [] },
           (w.log (Event.openFile path)).log (Event.createTemp env.tempName)) := by
        simp only [newFileRegexReplacer, hopen, hf, fileRegexReplacer.expectReplace, hr,
          decide_True, if_true, ht, Bool.false_eq_true, if_false]
      simp only [RegexReplaceFile, h0]
      simp only [fileRegexReplacer.scan, fileRegexReplacer.replace, Option.isSome_some, if_true,
        true_or]
      refine ⟨trivial, trivial, rfl, [Event.openFile path, Event.createTemp env.tempName,
        Event.closeFile path], ?_, ?_⟩
      · simp [fileRegexReplacer.close, World.log]
      · intro e he
        simp only [List.mem_cons, List.mem_singleton, List.not_mem_nil, or_false] at he
        rcases he with h | h | h
        · exact Or.inl h
        · exact Or.inr (Or.inl h)
        · exact Or.inr (Or.inr (Or.inl h))
    · have hfresh : w.fs env.tempName = none := by
        cases hx : w.fs env.tempName with
        | none => rfl
        | some x => exact absurd (Or.inr (by simp [hx])) ht
      have h0 : newFileRegexReplacer env w path pattern repl =
          ({ filePath := path, regex := none, repl := repl, file := some path,
             tempFile := some env.tempName, scanner := some f.content, writer := [],
             err := some GoError.invalidPattern, result := [] },
           ((w.log (Event.openFile path)).log (Event.createTemp env.tempName)).put env.tempName
             (some ⟨[], 0o600⟩)) := by
        simp only [newFileRegexReplacer, hopen, hf, fileRegexReplacer.expectReplace, hr,
          decide_True, if_true, ht, Bool.false_eq_true, if_false, hc]
      simp only [RegexReplaceFile, h0]
      simp only [fileRegexReplacer.scan, fileRegexReplacer.replace, Option.isSome_some, if_true,
        true_or]
      refine ⟨trivial, trivial, ?_, [Event.openFile path, Event.createTemp env.tempName,
        Event.closeFile path, Event.closeFile env.tempName, Event.remove env.tempName], ?_, ?_⟩
      · funext p
        by_cases hp : p = env.tempName
        · simp [fileRegexReplacer.close, World.log, World.put, hp, hfresh]
        · simp [fileRegexReplacer.close, World.log, World.put, hp]
      · simp [fileRegexReplacer.close, World.log, World.put]
      · intro e he
        simp only [List.mem_cons, List.mem_singleton, List.not_mem_nil, or_false] at he
        exact he
  · have h0 : newFileRegexReplacer env w path pattern repl =
        ({ filePath := path, regex := none, repl := repl, file := some path, tempFile := none,
           scanner := some f.content, writer := [], err := some GoError.invalidPattern,
           result := [] },
         w.log (Event.openFile path)) := by
      simp only [newFileRegexReplacer, hopen, hf, fileRegexReplacer.expectReplace, hr,
        decide_False, Bool.false_eq_true, if_false, hc]
    simp only [RegexReplaceFile, h0]
    simp only [fileRegexReplacer.scan, fileRegexReplacer.replace, Option.isSome_some, if_true,
      true_or]
    refine ⟨trivial, trivial, rfl, [Event.openFile path, Event.closeFile path], ?_, ?_⟩
    · simp [fileRegexReplacer.close, World.log]
    · intro e he
      simp only [List.mem_cons, List.mem_singleton, List.not_mem_nil, or_false] at he
      rcases he with h | h
      · exact Or.inl h
      · exact Or.inr (Or.inr (Or.inl h))

/-- Witness of C9: the pattern `(` on a file of one line, with a replacement. -/
theorem C9_invalid_pattern_rejected_witness :
    sampleEnv.openFails = false ∧
    (sampleWorld "ab\n".toList).fs samplePath = some ⟨"ab\n".toList, 0o644⟩ ∧
    sampleEnv.compile "(".toList = none ∧
    (RegexReplaceFile sampleEnv (sampleWorld "ab\n".toList) samplePath "(".toList
      "X".toList).err.isSome = true ∧
    (RegexReplaceFile sampleEnv (sampleWorld "ab\n".toList) samplePath "(".toList
      "X".toList).result = [] ∧
    (RegexReplaceFile sampleEnv (sampleWorld "ab\n".toList) samplePath "(".toList
      "X".toList).world.fs = (sampleWorld "ab\n".toList).fs :=
  ⟨rfl, by decide, rfl,
    (C9_invalid_pattern_rejected sampleEnv (sampleWorld "ab\n".toList) samplePath "(".toList
      "X".toList ⟨"ab\n".toList, 0o644⟩ rfl (by decide) rfl).1,
    (C9_invalid_pattern_rejected sampleEnv (sampleWorld "ab\n".toList) samplePath "(".toList
      "X".toList ⟨"ab\n".toList, 0o644⟩ rfl (by decide) rfl).2.1,
    (C9_invalid_pattern_rejected sampleEnv (sampleWorld "ab\n".toList) samplePath "(".toList
      "X".toList ⟨"ab\n".toList, 0o644⟩ rfl (by decide) rfl).2.2.1⟩

/-- C10: for every call, with a non-empty replacement in particular, and whatever fails
(nothing, the pattern, the scan, a write, the flush, the rename, the chmod), the
temporary file of the call, created under a name that was free, does not exist when the
call returns. -/
theorem C10_no_temp_file_left (env : Env) (w : World) (path pattern repl : Str)
    (hfresh : w.fs env.tempName = none) :
    (RegexReplaceFile env w path pattern repl).world.fs env.tempName = none := by
  have h0 := newFileRegexReplacer_temp env w path pattern repl
  simp only [RegexReplaceFile]
  generalize newFileRegexReplacer env w path pattern repl = s0 at *
  obtain ⟨h1fs, h1t, _, _, _⟩ := scan_frame env s0.1 s0.2
  generalize s0.1.scan env s0.2 = s1 at *
  obtain ⟨h2t, _, h2fs⟩ := replace_frame env s1.1 s1.2
  generalize s1.1.replace env s1.2 = s2 at *
  rcases h0 with ⟨ht, hfs⟩ | ht
  · have ht2 : s2.1.tempFile = none := by rw [h2t, h1t, ht]
    rw [close_fs_none s2.1 s2.2 ht2, h2fs (by rw [h1t, ht]), h1fs, hfs]
    exact hfresh
  · exact close_fs_temp s2.1 s2.2 env.tempName (by rw [h2t, h1t, ht])

/-- Witness of C10: a call whose rename fails; the temporary file was created and is
gone, and the file keeps its bytes. -/
theorem C10_no_temp_file_left_witness :
    (sampleWorld "a\n".toList).fs renameFailsEnv.tempName = none ∧
    (RegexReplaceFile renameFailsEnv (sampleWorld "a\n".toList) samplePath "a".toList
      "x".toList).world.fs renameFailsEnv.tempName = none ∧
    Event.createTemp renameFailsEnv.tempName ∈
      (RegexReplaceFile renameFailsEnv (sampleWorld "a\n".toList) samplePath "a".toList
        "x".toList).world.trace ∧
    (RegexReplaceFile renameFailsEnv (sampleWorld "a\n".toList) samplePath "a".toList
      "x".toList).err = some GoError.renameFailed :=
  ⟨by decide,
    C10_no_temp_file_left renameFailsEnv (sampleWorld "a\n".toList) samplePath "a".toList
      "x".toList (by decide),
    by decide, by decide⟩

end Practical
